import Mathlib

/-!
Shallow embedding of the `bedrock-authn-token` library (digitalbazaar), used
to check the natural-language specification against the code.

The embedding follows the current (2023) sources:
  * `lib/helpers.js`                — fast hashing, nonce generation
  * `lib/pbkdf2.js`                 — PHC serialization / deserialization
  * `lib/tokenStorage.js`           — account credential storage adapter
  * `lib/tokens.js`                 — token lifecycle (set/get/getAll/remove/verify)
  * `lib/clients.js`                — client registration guard
  * `lib/authenticationMethods.js`  — requirement matcher

Modelling conventions:
  * SHA-256 is modelled by an injective stand-in (`Digest` keeps the exact
    pre-image string); base64 encoding/decoding of digests is modelled as a
    tagged identity.  Everything the library does with hashes is build /
    compare, so an injective stand-in is observationally faithful.
  * MongoDB documents are modelled by `AccountRecord`; the collection by a
    list of records; `updateOne` updates the first matching record.
    `database.hash(accountId)` is injective, so the query `{id: hash(aid)}`
    is modelled as matching on `account.id = aid` directly.
  * An absent `meta.bedrock-authn-token.tokens.nonce` field and an empty
    array are observationally equivalent in all the modelled code paths
    (`getAccountRecord` treats `length === 0` like a missing field when a
    token is required), so the nonce slot is a plain `List Token`.
  * Randomness / external crypto (random bytes, `bnid.generateId`, pbkdf2
    derivation, TOTP verification) is passed in as explicit arguments.
  * Dates are naturals (milliseconds); `new Date()` becomes a `now` argument.
-/

namespace BedrockAuthnToken

/-- Modelled SHA-256 digest: an injective stand-in that keeps the hashed
string.  Comparison of two digests (the only operation the library performs,
via `crypto.timingSafeEqual`) is then string equality. -/
structure Digest where
  data : String
deriving DecidableEq, Repr

/-- Model of `crypto.createHash('sha256')...digest()` (`_sha256` in
`helpers.js`). -/
def sha256Hash (s : String) : Digest := ⟨s⟩

/-- `cfg.hashPrefix` from `config.js`. -/
def hashPrefix : String := "bedrock-authn-token:"

/-- `_prefixedHash` from `helpers.js`: sha256 of the configured application
prefix concatenated with the input (legacy bcrypt token format). -/
def prefixedHash (x : String) : Digest := sha256Hash (hashPrefix ++ x)

/-- The `data` string assembled by `fastHash` in `helpers.js` when `data` is
not supplied directly: `slowHashOrUnguessableChallenge:clientId` when a
client id is given, otherwise just the slow hash / challenge. -/
def fastHashData (clientId : Option String) (slowHashOrUnguessableChallenge : String) : String :=
  match clientId with
  | some c => slowHashOrUnguessableChallenge ++ ":" ++ c
  | none => slowHashOrUnguessableChallenge

/-- `fastHash` from `helpers.js`, restricted to the digest-producing calls
used by token verification (the `encoding` option is handled separately by
`fastHashBase64` below).  `pre` models the `prefix` option selecting the
legacy `_prefixedHash`. -/
def fastHash (clientId : Option String) (slowHashOrUnguessableChallenge : String)
    (pre : Bool) : Digest :=
  let data := fastHashData clientId slowHashOrUnguessableChallenge
  if pre then prefixedHash data else sha256Hash data

/-- A stored fast hash: either raw digest bytes (current format) or the
legacy base64 string encoding of the digest (`typeof sha256 === 'string'` in
`verifySlowHashOrUnguessableChallenge`).  Base64 round-trips, so decoding is
modelled as unwrapping. -/
inductive StoredHash where
  | digest (d : Digest)
  | base64 (d : Digest)
deriving DecidableEq, Repr

/-- The digest a stored hash denotes (`Buffer.from(sha256, 'base64')` for
the legacy string form). -/
def StoredHash.toDigest : StoredHash → Digest
  | .digest d => d
  | .base64 d => d

/-- `verifySlowHashOrUnguessableChallenge` from `helpers.js`: prefix the
fast hash when the supplied value is a bcrypt hash (starts with `$2b`),
decode a legacy base64 stored hash, and compare in constant time. -/
def verifySlowHashOrUnguessableChallenge (clientId : Option String)
    (slowHashOrUnguessableChallenge : String) (sha256 : StoredHash) : Bool :=
  let pre := List.isPrefixOf "$2b".data slowHashOrUnguessableChallenge.data
  sha256.toDigest = fastHash clientId slowHashOrUnguessableChallenge pre

/-- `fastHash({data, encoding: 'base64'})` as used by `clients.js`: the
base64 string of the sha256 digest of `data`.  Modelled as an injective
string stand-in for that encoding. -/
def fastHashBase64 (data : String) : String :=
  "base64:sha256:" ++ data

/-- `NUMERIC_DIGITS` from `helpers.js`. -/
def NUMERIC_DIGITS : String := "0123456789"

/-- One output character of the human-entry nonce: JS computes
`NUMERIC_DIGITS[Math.floor(b / 255 * (NUMERIC_DIGITS.length - 1))]`.  For
byte values `b ≤ 255` the float computation always rounds to the same value
as exact arithmetic (the distance to the nearest integer boundary is at
least `1/255`, far above double rounding error), so the index is `⌊b*9/255⌋`. -/
def nonceDigit (b : Nat) : Char :=
  NUMERIC_DIGITS.toList.getD (b * 9 / 255) ' '

/-- `generateNonce` from `helpers.js`.  The six random bytes drawn for the
`human` entry style and the `bnid.generateId()` output used for the
`machine` entry style are passed in explicitly. -/
def generateNonce (entryStyle : String) (bytes : List Nat) (generatedId : String) :
    Except String String :=
  if entryStyle = "human" then
    .ok (String.mk (bytes.map nonceDigit))
  else if entryStyle = "machine" then
    .ok generatedId
  else
    .error ("Invalid entryStyle " ++ entryStyle ++
      "; entryStyle must be human or machine.")

/-- The base58 (Bitcoin) alphabet, used to state what a `bnid.generateId`
identifier looks like. -/
def base58Alphabet : List Char :=
  "123456789ABCDEFGHJKLMNPQRSTUVWXYZabcdefghijkmnopqrstuvwxyz".toList

/-- A string is base58-encoded when every character is from the base58
alphabet. -/
def isBase58 (s : String) : Bool :=
  s.toList.all (base58Alphabet.contains ·)

/-- A string over the base64 alphabet without padding (as produced by
`_toBase64NoPad` in `pbkdf2.js`). -/
def isBase64NoPad (s : String) : Bool :=
  s.data.all (fun c => c.isAlphanum || c = '+' || c = '/')

/-! ### Models of JS string primitives

`String.split`, `parseInt` and `Number#toString` are JS primitives; they
are modelled here by executable list-based definitions with exactly the
observable behaviour used by the library. -/

/-- JS `String.prototype.split` with a single-character separator, on
character lists: `'' → ['']`, separators at the ends produce empty
fragments. -/
def splitOnCharList (sep : Char) : List Char → List (List Char)
  | [] => [[]]
  | c :: rest =>
    let r := splitOnCharList sep rest
    if c = sep then [] :: r
    else
      match r with
      | [] => [[c]]
      | h :: t => (c :: h) :: t

/-- JS `s.split(sep)` for a one-character separator. -/
def jsSplit (sep : Char) (s : String) : List String :=
  (splitOnCharList sep s.data).map (fun l => String.mk l)

/-- JS `Array.prototype.join`. -/
def jsJoin (sep : String) : List String → String
  | [] => ""
  | [x] => x
  | x :: rest => x ++ sep ++ jsJoin sep rest

/-- The character of a decimal digit (`d < 10`). -/
def decDigitChar : Nat → Char
  | 0 => '0' | 1 => '1' | 2 => '2' | 3 => '3' | 4 => '4'
  | 5 => '5' | 6 => '6' | 7 => '7' | 8 => '8' | _ => '9'

/-- Canonical decimal digits with explicit fuel (structural recursion so
that concrete instances compute inside the kernel); any `fuel > n` yields
the digits of `n`. -/
def natDecCharsFuel : Nat → Nat → List Char
  | 0, _ => []
  | fuel + 1, n =>
    if n < 10 then [decDigitChar n]
    else natDecCharsFuel fuel (n / 10) ++ [decDigitChar (n % 10)]

/-- Canonical decimal digits of a natural number (most significant first,
no leading zeros, `0 → "0"`). -/
def natDecChars (n : Nat) : List Char := natDecCharsFuel (n + 1) n

/-- Model of JS `Number.prototype.toString` on integers: canonical decimal
representation. -/
def intDecString (n : Int) : String :=
  match n with
  | .ofNat m => ⟨natDecChars m⟩
  | .negSucc m => ⟨'-' :: natDecChars (m + 1)⟩

/-- Numeric value of a decimal digit character. -/
def decDigitVal (c : Char) : Nat := c.toNat - '0'.toNat

/-- Parse a non-empty all-digit character list as a natural number
(leading zeros allowed, like `parseInt`). -/
def parseDecNat (l : List Char) : Option Nat :=
  if l ≠ [] ∧ l.all Char.isDigit then
    some (l.foldl (fun a c => a * 10 + decDigitVal c) 0)
  else none

/-- The integer-canonicalization step of `deserializePhc`: JS computes
`parseInt(s, 10)` and replaces the string by the number exactly when
`num.toString() === s`, i.e. exactly when `s` is the canonical decimal
representation of an integer (for every other `s` — junk suffixes, signs,
leading zeros, whitespace — the canonical check fails and the string is
kept, in JS and in this model alike). -/
def canonicalInt? (s : String) : Option Int :=
  let parsed : Option Int :=
    match s.data with
    | [] => none
    | c :: rest =>
      if c = '-' then
        (parseDecNat rest).bind (fun m => if m = 0 then none else some (-(m : Int)))
      else
        (parseDecNat (c :: rest)).map (fun m => (m : Int))
  match parsed with
  | some n => if intDecString n = s then some n else none
  | none => none

/-! ### PHC serialization (`pbkdf2.js`) -/

/-- A PHC parameter value: parameter strings parse to strings first and are
replaced by numbers when `parseInt` round-trips (`pbkdf2.js`,
`deserializePhc`).  `undef` models a `key` with no `=value` part
(JS `Object.fromEntries` stores `undefined`). -/
inductive PhcParamValue where
  | str (s : String)
  | num (n : Int)
  | undef
deriving DecidableEq, Repr

/-- `kv.join('=')` for one `Object.entries(params)` pair: numbers are
stringified, `undefined` joins as the empty string. -/
def phcParamEntryString (kv : String × PhcParamValue) : String :=
  let v := match kv.2 with
    | .str s => s
    | .num n => intDecString n
    | .undef => ""
  kv.1 ++ "=" ++ v

/-- A PHC object as handled by `serializePhc` / `deserializePhc` (salt and
hash already in base64-without-padding string form). -/
structure Phc where
  id : String
  params : List (String × PhcParamValue)
  salt : String
  hash : String
deriving DecidableEq, Repr

/-- `serializePhc` from `pbkdf2.js`:
`$<id>$<k=v,...>$<base64 salt>$<base64 hash>`. -/
def serializePhc (phc : Phc) : String :=
  let paramString := jsJoin "," (phc.params.map phcParamEntryString)
  "$" ++ phc.id ++ "$" ++ paramString ++ "$" ++ phc.salt ++ "$" ++ phc.hash

/-- JS `Object.fromEntries` on string keys: insertion order of first
occurrence, later values overwrite earlier ones. -/
def jsFromEntries (l : List (String × PhcParamValue)) : List (String × PhcParamValue) :=
  l.foldl
    (fun acc kv =>
      if acc.any (fun e => e.1 = kv.1) then
        acc.map (fun e => if e.1 = kv.1 then (e.1, kv.2) else e)
      else acc ++ [kv])
    []

/-- Apply integer canonicalization to one parsed parameter value. -/
def canonicalizeParam : PhcParamValue → PhcParamValue
  | .str s =>
    match canonicalInt? s with
    | some n => .num n
    | none => .str s
  | v => v

/-- Parse one `k=v` fragment of the parameter string (`p.split('=')`;
`Object.fromEntries` uses the first two components, a missing value is
`undefined`). -/
def parsePhcParam (p : String) : String × PhcParamValue :=
  match jsSplit '=' p with
  | [] => ("", .undef)
  | [k] => (k, .undef)
  | k :: v :: _ => (k, .str v)

/-- Errors surfaced by the modelled library (`BedrockError` names plus the
`assert-plus` assertion failure used by argument validation). -/
inductive BError where
  | notFoundError (msg : String)
  | notAllowedError (msg : String)
  | duplicateError (msg : String)
  | invalidStateError (msg : String)
  | operationError (msg : String)
  | dataError (msg : String)
  | syntaxError (msg : String)
  | constraintError (msg : String)
  | assertionError (msg : String)
  | jsError (msg : String)
deriving DecidableEq, Repr

/-- `e.name === 'NotFoundError'` checks. -/
def BError.isNotFound : BError → Bool
  | .notFoundError _ => true
  | _ => false

/-- `deserializePhc` from `pbkdf2.js`.  `serialized.split('$')` with
destructuring `[, id, paramString, salt, hash]`; missing components are
`undefined`, modelled by the empty string (every modelled control path
treats them identically: an `undefined` id is unsupported, an `undefined`
param string yields no numeric `i`). -/
def deserializePhc (serialized : String) : Except BError Phc :=
  let parts := jsSplit '$' serialized
  let id := parts.getD 1 ""
  let paramString := parts.getD 2 ""
  let salt := parts.getD 3 ""
  let hash := parts.getD 4 ""
  if id ≠ "pbkdf2-sha512" then
    .error (.syntaxError ("Unsupported hash algorithm " ++ id ++ "."))
  else
    let params := jsFromEntries ((jsSplit ',' paramString).map parsePhcParam)
    let params := params.map (fun kv => (kv.1, canonicalizeParam kv.2))
    let iVal := (params.find? (fun kv => kv.1 = "i")).map (·.2)
    let iIsNum := match iVal with
      | some (.num _) => true
      | _ => false
    if params.length ≠ 1 || !iIsNum then
      .error (.syntaxError ("Unsupported parameters " ++ paramString ++ "."))
    else
      .ok { id := id, params := params, salt := salt, hash := hash }

/-! ### Requirement matcher (`authenticationMethods.js`) -/

/-- One entry of `requiredAuthenticationMethods`: either a single method
identifier or a group (array) meaning any one member discharges the slot. -/
inductive ReqEntry where
  | single (s : String)
  | group (g : List String)
deriving DecidableEq, Repr

/-- The per-entry match in `checkAuthenticationRequirements`:
`Array.isArray(d) ? m => d.includes(m) : m => d === m`. -/
def reqMatches (d : ReqEntry) (m : String) : Bool :=
  match d with
  | .single s => s = m
  | .group g => g.contains m

/-- The inner loop of `checkAuthenticationRequirements`: scan `unmet` for
the first entry matched by `m` and splice it out (`unmet.splice(i, 1)`),
leaving the list unchanged when nothing matches. -/
def removeFirstMatch (unmet : List ReqEntry) (m : String) : List ReqEntry :=
  match unmet.findIdx? (fun d => reqMatches d m) with
  | some i => unmet.eraseIdx i
  | none => unmet

/-- `checkAuthenticationRequirements` from `authenticationMethods.js`:
fold the satisfied methods over the mutable copy of the requirements and
succeed iff nothing remains unmet. -/
def checkAuthenticationRequirements (requiredAuthenticationMethods : List ReqEntry)
    (authenticatedMethods : List String) : Bool :=
  (authenticatedMethods.foldl removeFirstMatch requiredAuthenticationMethods).isEmpty

/-! ### Data model (account records and tokens) -/

/-- `token.hashParameters` (`{id, params, salt}`): PHC-derived parameters
for password / human nonce tokens, or the synthesized bcrypt defaults added
for legacy tokens on read.  `salt` is optional because the synthesized
defaults copy a possibly missing top-level `salt`. -/
structure TokenHashParameters where
  id : String
  params : List (String × PhcParamValue)
  salt : Option String
deriving DecidableEq, Repr

/-- An authentication token as stored in
`meta.bedrock-authn-token.tokens.<type>`.  Optional fields model JS fields
that are only present for some token variants (`salt` marks legacy bcrypt
tokens; `expires` is a millisecond timestamp). -/
structure Token where
  id : String
  authenticationMethod : Option String := none
  requiredAuthenticationMethods : List ReqEntry := []
  sha256 : Option StoredHash := none
  expires : Option Nat := none
  salt : Option String := none
  hashParameters : Option TokenHashParameters := none
  secret : Option String := none
  otpAuthUrl : Option String := none
deriving DecidableEq, Repr

/-- A client registration entry (`clients.js`):
`{id: hash(clientId), authenticated}`. -/
structure Client where
  id : String
  authenticated : Bool
deriving DecidableEq, Repr

/-- The `meta.bedrock-authn-token.tokens` credential map: `password` and
`totp` are singletons, `nonce` is an ordered array.  An absent nonce field
is modelled as the empty list (observationally equivalent in all modelled
code paths). -/
structure TokensMap where
  password : Option Token := none
  nonce : List Token := []
  totp : Option Token := none
deriving DecidableEq, Repr

/-- Account `meta`: the optimistic-concurrency `sequence` number plus the
`bedrock-authn-token` section (tokens and registered clients). -/
structure AccountMeta where
  sequence : Nat := 0
  tokens : TokensMap := {}
  clients : List (String × Client) := []
deriving DecidableEq, Repr

/-- The `account` document proper (projected to the fields the library
uses). -/
structure Account where
  id : String
  email : Option String := none
deriving DecidableEq, Repr

/-- A record of the `account` collection. -/
structure AccountRecord where
  account : Account
  meta : AccountMeta
deriving DecidableEq, Repr

/-- The `account` collection. -/
abbrev Db := List AccountRecord

/-- Token types (`TOKEN_TYPES` in `helpers.js`). -/
inductive TokenType where
  | password
  | nonce
  | totp
deriving DecidableEq, Repr

/-- Read the credential slot of a type as the JS code sees it: a possibly
missing singleton for `password`/`totp`, an array for `nonce`.  Returned as
`Sum` to keep the array / non-array distinction the code branches on. -/
def TokensMap.get (tm : TokensMap) : TokenType → Option Token ⊕ List Token
  | .password => .inl tm.password
  | .nonce => .inr tm.nonce
  | .totp => .inl tm.totp

/-- `brAccount.get({id})`: look an account up by id (`database.hash` is
injective, so matching the hashed id equals matching the id).  Throws
`NotFoundError` when absent. -/
def brAccountGet (db : Db) (accountId : String) : Except BError AccountRecord :=
  match db.find? (fun r => r.account.id = accountId) with
  | some r => .ok r
  | none => .error (.notFoundError "Account not found.")

/-- `brAccount.update({id, meta})`: conditional write — succeeds only when
the stored sequence is exactly one less than the new meta's sequence,
otherwise reports `InvalidStateError` (concurrent modification).  Account
absence is `NotFoundError`. -/
def brAccountUpdate (db : Db) (accountId : String) (meta : AccountMeta) :
    Except BError Db :=
  match db.find? (fun r => r.account.id = accountId) with
  | none => .error (.notFoundError "Account not found.")
  | some r =>
    if meta.sequence = r.meta.sequence + 1 then
      .ok (db.map (fun s => if s.account.id = accountId then { s with meta := meta } else s))
    else
      .error (.invalidStateError "Could not update account; sequence does not match.")

instance : Inhabited AccountRecord :=
  ⟨{ account := { id := "" }, meta := {} }⟩

/-- `updateOne(query, update)` against the account collection: apply `f` to
the first record matching `pred`; returns the new collection and
`result.n` (the number of matched documents, 0 or 1). -/
def updateOne (db : Db) (pred : AccountRecord → Bool) (f : AccountRecord → AccountRecord) :
    Db × Nat :=
  match db.findIdx? pred with
  | some i => (db.set i (f (db.getD i default)), 1)
  | none => (db, 0)

/-! ### Credential store adapter (`tokenStorage.js`, current version) -/

/-- `getAccountRecord` from `tokenStorage.js`: fetch the account record and
ensure it has a matching token of `type` when `id` is given or a token is
required; otherwise report `NotFoundError` with the appropriate subject. -/
def getAccountRecord (db : Db) (accountId : String) (id : Option String)
    (ty : TokenType) (requireToken : Bool) : Except BError AccountRecord := do
  let record ← brAccountGet db accountId
  let ok : Bool := match record.meta.tokens.get ty with
    | .inr tokens =>
      match id with
      | some i => tokens.any (fun t => t.id = i)
      | none => !(requireToken && tokens.length = 0)
    | .inl tok =>
      match id with
      | some i => (tok.map (fun t => t.id)) = some i
      | none => !(requireToken && tok.isNone)
  if ok then
    .ok record
  else
    .error (.notFoundError
      ((if requireToken then "Authentication token" else "Account") ++ " not found."))

/-- `pushToken` from `tokenStorage.js` (always invoked with `type: 'nonce'`):
`_addToken` with a `$push` update and a query requiring that the array
element at index `maxCount - 1` does not exist, i.e. the push happens only
when fewer than `maxCount` nonces are stored.  The mongo `$exists` check on
an array index is false for a negative index, hence the `Int` arithmetic.
Returns `result.n > 0`. -/
def pushToken (db : Db) (accountId : String) (token : Token) (maxCount : Nat) :
    Db × Bool :=
  let maxIndex : Int := (maxCount : Int) - 1
  let pred := fun (r : AccountRecord) =>
    r.account.id = accountId &&
      !(decide (0 ≤ maxIndex) && decide (maxIndex < (r.meta.tokens.nonce.length : Int)))
  let apply := fun (r : AccountRecord) =>
    { r with meta := { r.meta with
        tokens := { r.meta.tokens with nonce := r.meta.tokens.nonce ++ [token] } } }
  let (db', n) := updateOne db pred apply
  (db', n > 0)

/-- The singleton token types (`setToken` is only ever invoked for
`password` and `totp` in the source). -/
inductive SingletonType where
  | password
  | totp
deriving DecidableEq, Repr

/-- The generic `TokenType` of a singleton type. -/
def SingletonType.toTokenType : SingletonType → TokenType
  | .password => .password
  | .totp => .totp

/-- `setToken` from `tokenStorage.js`: `_addToken` with a `$set` update
replacing the singleton slot, then `NotFoundError` when no account
matched. -/
def setToken (db : Db) (accountId : String) (ty : SingletonType) (token : Token) :
    Except BError Db :=
  let apply := fun (r : AccountRecord) =>
    { r with meta := { r.meta with
        tokens := match ty with
          | .password => { r.meta.tokens with password := some token }
          | .totp => { r.meta.tokens with totp := some token } } }
  let result := updateOne db (fun r => r.account.id = accountId) apply
  if result.2 > 0 then
    .ok result.1
  else
    .error (.notFoundError "Could not set authentication token. Account not found.")

/-- JS strict inequality `t !== t.id` between a token object and a string:
an object is never strictly equal to a string, so this always holds. -/
def jsTokenNeqString (_t : Token) (_s : String) : Bool := true

/-- Clear the credential slot of a type (`delete meta[...].tokens[type]`;
deleting the nonce array leaves the observationally equivalent empty
list). -/
def eraseSlot (ty : TokenType) (tm : TokensMap) : TokensMap :=
  match ty with
  | .password => { tm with password := none }
  | .nonce => { tm with nonce := [] }
  | .totp => { tm with totp := none }

/-- `removeToken` from `tokenStorage.js` (current version): read the
record, check the targeted token exists, bump the sequence by one and write
the meta back.  The `while(true)` retry loop only iterates on
`InvalidStateError` from a concurrent update, which cannot occur in this
sequential model (the sequence is read in the same cycle), so a single
iteration decides.  Two source quirks are preserved:
  * targeted array removal filters with `t => t !== t.id`, which compares
    each token object against its own id string and therefore keeps every
    token (see `jsTokenNeqString`);
  * the rethrown error message is
    `'Could not remove authentication token. ' + notFound ? '...' : ''`,
    whose condition is the (always truthy) concatenated string, so the
    message is always `' Account or token not found.'`. -/
def removeToken (db : Db) (accountId : String) (ty : TokenType) (id : Option String) :
    Except BError Db :=
  let inner : Except BError Db := do
    let record ← brAccountGet db accountId
    let tokens := record.meta.tokens.get ty
    let hasToken : Bool := match tokens with
      | .inr l =>
        match id with
        | none => l.length > 0
        | some i => l.any (fun t => t.id = i)
      | .inl tok =>
        match tok with
        | none => false
        | some t =>
          match id with
          | none => true
          | some i => t.id = i
    if !hasToken then
      .error (.notFoundError "Token not found.")
    else
      let newTokens : TokensMap :=
        match id, tokens with
        | some _, .inr l =>
          { record.meta.tokens with nonce := l.filter (fun t => jsTokenNeqString t t.id) }
        | some _, .inl _ => eraseSlot ty record.meta.tokens
        | none, _ => eraseSlot ty record.meta.tokens
      let meta := { record.meta with
        sequence := record.meta.sequence + 1, tokens := newTokens }
      brAccountUpdate db accountId meta
  match inner with
  | .ok db' => .ok db'
  | .error e =>
    if e.isNotFound then .error (.notFoundError " Account or token not found.")
    else .error (.operationError " Account or token not found.")

/-- Does a nonce token match the `removeExpiredTokens` pull condition:
`expires ≤ now` or a legacy `salt` field. -/
def tokenExpiredOrLegacy (now : Nat) (t : Token) : Bool :=
  (match t.expires with | some e => e ≤ now | none => false) || t.salt.isSome

/-- `removeExpiredTokens` from `tokenStorage.js` (always invoked with
`type: 'nonce'`): pull all expired or legacy nonce tokens; returns
`result.n > 0` (a record matched the query). -/
def removeExpiredTokens (db : Db) (accountId : String) (now : Nat) : Db × Bool :=
  let pred := fun (r : AccountRecord) =>
    r.account.id = accountId && r.meta.tokens.nonce.any (tokenExpiredOrLegacy now)
  let apply := fun (r : AccountRecord) =>
    { r with meta := { r.meta with
        tokens := { r.meta.tokens with
          nonce := r.meta.tokens.nonce.filter (fun t => !tokenExpiredOrLegacy now t) } } }
  let (db', n) := updateOne db pred apply
  (db', n > 0)

/-- Greedy first-match removal as worded in the specification: each
satisfied identifier removes the first remaining entry it discharges (an
equal single identifier or membership in a group), `none` when it
discharges nothing. -/
def dischargeFirst : List ReqEntry → String → Option (List ReqEntry)
  | [], _ => none
  | d :: rest, m =>
    if reqMatches d m then some rest
    else (dischargeFirst rest m).map (d :: ·)

/-- Spec-side matcher: start from `required` and let each satisfied
identifier (in list order) remove the first entry it discharges; satisfied
iff the remaining list is empty. -/
def greedyFirstMatchSpec (required : List ReqEntry) (satisfied : List String) : Bool :=
  (satisfied.foldl (fun unmet m => (dischargeFirst unmet m).getD unmet) required).isEmpty

/-! ### Token lifecycle (`tokens.js`, current version) -/

/-- The configuration surface (`config.js`) used by the token lifecycle. -/
structure Config where
  pbkdf2Id : String := "pbkdf2-sha512"
  pbkdf2Iterations : Int := 100000
  pbkdf2MinIterations : Int := 100000
  pbkdf2SaltSize : Nat := 16
  nonceTtl : Nat := 600000
  maxNonceCount : Nat := 5
  testerAccounts : List (Option String × Option String) := []
deriving Repr

/-- `TESTER_CHALLENGE_TOKEN` from `tokens.js`. -/
def TESTER_CHALLENGE_TOKEN : String := "000000"

/-- `_isTesterAccount` from `tokens.js`: the account id or email matches a
configured tester entry. -/
def _isTesterAccount (cfg : Config) (accountId email : Option String) : Bool :=
  cfg.testerAccounts.any (fun e =>
    (e.1.isSome && e.1 = accountId) || (e.2.isSome && e.2 = email))

/-- The `tokens` / `expiredTokens` / `allTokens` triple returned by
`getAll`. -/
structure GetAllResult where
  allTokens : List Token
  tokens : List Token
  expiredTokens : List Token
deriving DecidableEq, Repr

/-- The synthesized legacy hash parameters
(`{id: 'bcrypt', salt: token.salt, params: {r: 10}}`). -/
def bcryptHashParameters (salt : Option String) : TokenHashParameters :=
  { id := "bcrypt", params := [("r", .num 10)], salt := salt }

/-- The map step of `getAll`: add default `hashParameters` to any
non-`totp` token that lacks them (legacy bcrypt tokens carry `salt`
instead). -/
def getAllMapToken (ty : TokenType) (t : Token) : Token :=
  if ty ≠ TokenType.totp ∧ t.hashParameters.isNone then
    { t with hashParameters := some (bcryptHashParameters t.salt) }
  else t

/-- Is a token placed on the unexpired side by `getAll`
(`!token.expires || token.expires > now`)? -/
def tokenUnexpired (now : Nat) (t : Token) : Bool :=
  match t.expires with
  | some e => e > now
  | none => true

/-- One step of the `getAll` expiry partition: unexpired tokens go to the
first component unless they are legacy (`salt`-carrying) nonce tokens,
which are auto-expired; everything else goes to the expired side. -/
def getAllSplitStep (ty : TokenType) (now : Nat) (acc : List Token × List Token)
    (t : Token) : List Token × List Token :=
  if tokenUnexpired now t then
    if ty = TokenType.nonce ∧ t.salt.isSome then (acc.1, acc.2 ++ [t])
    else (acc.1 ++ [t], acc.2)
  else (acc.1, acc.2 ++ [t])

/-- `getAll` from `tokens.js` (current version): read the record without
requiring a token, normalize the slot to an array, synthesize legacy hash
parameters, then split into unexpired `tokens` and `expiredTokens`; a
legacy (`salt`-carrying) *nonce* token is forced onto the expired side even
when unexpired. -/
def getAll (db : Db) (accountId : String) (ty : TokenType) (now : Nat) :
    Except BError GetAllResult := do
  let record ← getAccountRecord db accountId none ty false
  let result : List Token :=
    match record.meta.tokens.get ty with
    | .inl none => []
    | .inl (some t) => [t]
    | .inr l => l
  let allTokens := result.map (getAllMapToken ty)
  let split := allTokens.foldl (getAllSplitStep ty now) ([], [])
  .ok { allTokens := allTokens, tokens := split.1, expiredTokens := split.2 }

/-- `get` from `tokens.js` (current version): select the token (by id or
the last array entry), reject an expired one as `NotFoundError` when
filtering, and synthesize legacy `hashParameters` when the token carries a
top-level `salt`. -/
def get (db : Db) (accountId : String) (ty : TokenType) (id : Option String)
    (filterExpiredTokens : Bool) (now : Nat) : Except BError Token := do
  let record ← getAccountRecord db accountId id ty true
  let token? : Option Token :=
    match record.meta.tokens.get ty with
    | .inr l =>
      match id with
      | some i => l.find? (fun t => t.id = i)
      | none => l.getLast?
    | .inl t => t
  match token? with
  | none =>
    -- unreachable: `getAccountRecord` guarantees a matching token; the JS
    -- would fault reading `token.expires` of `undefined`
    .error (.jsError "TypeError: token is undefined")
  | some token =>
    if filterExpiredTokens &&
        (match token.expires with | some e => e < now | none => false) then
      .error (.notFoundError "Authentication token has expired.")
    else if ty ≠ TokenType.totp ∧ token.salt.isSome then
      .ok { token with hashParameters := some (bcryptHashParameters token.salt) }
    else
      .ok token

/-- `remove` from `tokens.js` (current version): `assert.string(accountId)`
(an `undefined` account id fails the assertion), then delegate to
`removeToken`.  The account id is an `Option` because `verify` calls this
function with an `account` property instead of `accountId`, which arrives
here as `undefined`. -/
def remove (db : Db) (accountId : Option String) (ty : TokenType)
    (id : Option String) : Except BError Db :=
  match accountId with
  | none => .error (.assertionError "accountId (string) is required")
  | some aid => removeToken db aid ty id

/-- Compare a supplied slow hash / challenge with a token's stored fast
hash.  A token without a `sha256` field would make the JS
`crypto.timingSafeEqual` fault; every password / nonce token the library
stores carries one. -/
def verifyStoredHash (clientId : Option String) (s : String) :
    Option StoredHash → Except BError Bool
  | some h => .ok (verifySlowHashOrUnguessableChallenge clientId s h)
  | none => .error (.jsError "TypeError: sha256 is undefined")

/-- The scan inside `_getMatchingNonce`: first token whose fast hash
matches; a matching but expired token raises `NotFoundError`. -/
def _getMatchingNonceGo (clientId : Option String) (s : String) (now : Nat) :
    List Token → Except BError (Option Token)
  | [] => .ok none
  | t :: rest => do
    let v ← verifyStoredHash clientId s t.sha256
    if !v then
      _getMatchingNonceGo clientId s now rest
    else if (match t.expires with | some e => decide (now ≥ e) | none => false) then
      .error (.notFoundError "Authentication token has expired.")
    else
      .ok (some t)

/-- `_getMatchingNonce` from `tokens.js`. -/
def _getMatchingNonce (record : AccountRecord) (clientId : Option String)
    (s : String) (now : Nat) : Except BError (Option Token) :=
  _getMatchingNonceGo clientId s now record.meta.tokens.nonce

/-- The printed name of a token type. -/
def tokenTypeName : TokenType → String
  | .password => "password"
  | .nonce => "nonce"
  | .totp => "totp"

/-- The successful result of `verify`: account identity plus satisfied
token information. -/
structure VerifyOk where
  id : String
  email : Option String
  tokenType : TokenType
  authenticationMethod : String
deriving DecidableEq, Repr

/-- `verify` from `tokens.js` (current version).  `totpVerify` models the
external `@digitalbazaar/totp` verification (covering both the
default-parameter and the key-URI branch).  Returns the JS `false` as
`none` and threads the database state (which `verify` mutates only through
the nonce-removal attempt). -/
def verify (db : Db) (accountId : String) (clientId : Option String)
    (ty : TokenType) (hash challenge : Option String)
    (authenticatedMethods : List String) (now : Nat)
    (totpVerify : String → Token → Bool) :
    Except BError (Option VerifyOk) × Db :=
  if !(hash.isSome ^^ challenge.isSome) then
    (.error (.jsError "Exactly one of hash or challenge is required."), db)
  else if ty = TokenType.totp ∧ hash.isSome then
    (.error (.dataError "Authentication token challenge must not be hashed."), db)
  else
    let slowHashOrUnguessableChallenge := hash.getD (challenge.getD "")
    match getAccountRecord db accountId none ty true with
    | .error e => (.error e, db)
    | .ok record =>
      let tokenResult : Except BError (Option Token) :=
        match ty with
        | .nonce => _getMatchingNonce record clientId slowHashOrUnguessableChallenge now
        | _ =>
          match record.meta.tokens.get ty with
          | .inl (some t) => .ok (some t)
          | _ => .error (.jsError "TypeError: token is undefined")  -- unreachable
      match tokenResult with
      | .error e => (.error e, db)
      | .ok none => (.ok none, db)  -- no matching nonce: return `false`
      | .ok (some token) =>
        if !checkAuthenticationRequirements
            token.requiredAuthenticationMethods authenticatedMethods then
          (.error (.notAllowedError
            ("Authentication token dependencies not met; other authentication " ++
              "methods must be used before verifying this token.")), db)
        else
          -- type-specific verification plus the nonce-removal side effect
          let step : Except BError (Bool × Db) :=
            match ty with
            | .nonce =>
              -- the nonce was verified by the way it was found above;
              -- BUG preserved from source: the removal call passes
              -- `{account: record.account.id}` so `remove` receives an
              -- undefined `accountId` and fails its assertion; the catch
              -- swallows every non-`NotFoundError` failure whenever the
              -- token has an `expires` value
              match remove db none TokenType.nonce none with
              | .ok db' => .ok (true, db')
              | .error e =>
                if !e.isNotFound && token.expires.isNone then .error e
                else .ok (true, db)
            | .totp =>
              match challenge with
              | some c => .ok (totpVerify c token, db)
              | none => .ok (totpVerify "" token, db)  -- unreachable: checked above
            | .password =>
              match verifyStoredHash clientId slowHashOrUnguessableChallenge token.sha256 with
              | .ok v => .ok (v, db)
              | .error e => .error e
          match step with
          | .error e => (.error e, db)
          | .ok (verified, db') =>
            if !verified then (.ok none, db')
            else
              (.ok (some {
                id := record.account.id,
                email := record.account.email,
                tokenType := ty,
                authenticationMethod :=
                  token.authenticationMethod.getD (tokenTypeName ty) }), db')

/-- `_initToken` from `tokens.js`: fresh random 128-bit id (injected) plus
the authentication-method bookkeeping fields. -/
def _initToken (generatedTokenId : String) (authenticationMethod : Option String)
    (requiredAuthenticationMethods : List ReqEntry) : Token :=
  { id := generatedTokenId,
    authenticationMethod := authenticationMethod,
    requiredAuthenticationMethods := requiredAuthenticationMethods }

/-- The bounded retry loop of `_pushNonceToken`: keep trying `pushToken`;
when it fails, give up with `OperationError` once the 10 retries are
exhausted, otherwise re-read the tokens and, if the account is at the
bound, evict expired tokens and try again or fail with `NotAllowedError`.
`fuel` is the remaining value of the JS `retries` counter. -/
def _pushNonceTokenGo (accountId : String) (token : Token) (maxCount : Nat)
    (now : Nat) : Nat → Db → Except BError Unit × Db
  | fuel, db =>
    let pushed := pushToken db accountId token maxCount
    if pushed.2 then
      (.ok (), pushed.1)
    else
      match fuel with
      | 0 => (.error (.operationError "Failed to add token; too many retries."), db)
      | fuel + 1 =>
        match getAll db accountId TokenType.nonce now with
        | .error e => (.error e, db)
        | .ok r =>
          if r.allTokens.length ≥ maxCount then
            if r.expiredTokens.length > 0 then
              let removedResult := removeExpiredTokens db accountId now
              if removedResult.2 then
                _pushNonceTokenGo accountId token maxCount now fuel removedResult.1
              else
                (.error (.notAllowedError
                  ("No more than " ++ toString maxCount ++
                    " tokens can be pending at once.")), removedResult.1)
            else
              (.error (.notAllowedError
                ("No more than " ++ toString maxCount ++
                  " tokens can be pending at once.")), db)
          else
            _pushNonceTokenGo accountId token maxCount now fuel db

/-- `_pushNonceToken` from `tokens.js`: the retry loop starts with
`retries = 10`. -/
def _pushNonceToken (cfg : Config) (db : Db) (accountId : String) (token : Token)
    (now : Nat) : Except BError Unit × Db :=
  _pushNonceTokenGo accountId token cfg.maxNonceCount now 10 db

/-- Look up the numeric `params.i` of a token's hash parameters
(`token?.hashParameters?.params?.i`). -/
def hashParamsIterations (hp : TokenHashParameters) : Option Int :=
  match hp.params.find? (fun kv => kv.1 = "i") with
  | some (_, .num n) => some n
  | _ => none

/-- The external pbkdf2 derivation as injected into the model: given
iterations, the secret and an optional existing base64 salt, return the
serialized PHC string (`hash`) and the PHC object (whose `salt` is the
fresh salt when none was supplied). -/
structure Pbkdf2Fn where
  run : Int → String → Option String → String × Phc

/-- `_addNonceToken` from `tokens.js` (current version).  Randomness and
key derivation are injected: `challengeBytes` / `generatedId` feed
`generateNonce`, `kdf` models the `pbkdf2` call.  Returns the challenge on
success. -/
def _addNonceToken (cfg : Config) (db : Db) (accountId : String) (token : Token)
    (clientId : Option String) (entryStyle : String) (now : Nat)
    (challengeBytes : List Nat) (generatedId : String) (kdf : Pbkdf2Fn) :
    Except BError String × Db :=
  match getAll db accountId TokenType.nonce now with
  | .error e => (.error e, db)
  | .ok r =>
    if r.tokens.length ≥ cfg.maxNonceCount then
      (.error (.notAllowedError
        ("No more than " ++ toString cfg.maxNonceCount ++
          " tokens can be pending at once.")), db)
    else
      let challengeResult :=
        if _isTesterAccount cfg (some accountId) none then
          Except.ok TESTER_CHALLENGE_TOKEN
        else
          generateNonce entryStyle challengeBytes generatedId
      match challengeResult with
      | .error msg => (.error (.jsError msg), db)
      | .ok challenge =>
        let token :=
          if entryStyle = "human" then
            -- reuse hash parameters from the most recent token whose id and
            -- iteration count match the system configuration
            let reused := (r.tokens.reverse.find? (fun t =>
              match t.hashParameters with
              | some hp =>
                hp.id = cfg.pbkdf2Id && hashParamsIterations hp = some cfg.pbkdf2Iterations
              | none => false)).bind (fun t => t.hashParameters)
            let hashParameters := reused.getD
              { id := cfg.pbkdf2Id, params := [("i", .num cfg.pbkdf2Iterations)],
                salt := none }
            let derived := kdf.run cfg.pbkdf2Iterations challenge hashParameters.salt
            let hashParameters :=
              if hashParameters.salt.isNone then
                { hashParameters with salt := some derived.2.salt }
              else hashParameters
            { token with
              hashParameters := some hashParameters,
              sha256 := some (.digest (fastHash clientId derived.1 false)),
              expires := some (now + cfg.nonceTtl) }
          else
            -- machine challenges are unguessable and are not slow-hashed
            { token with
              sha256 := some (.digest (fastHash clientId challenge false)),
              expires := some (now + cfg.nonceTtl) }
        let pushResult := _pushNonceToken cfg db accountId token now
        match pushResult.1 with
        | .error e => (.error e, pushResult.2)
        | .ok _ => (.ok challenge, pushResult.2)

/-- The minimum-iterations check of `_addPasswordToken`
(`phc.params.i < minIterations`; a non-numeric `i` compares false). -/
def phcBelowMinIterations (cfg : Config) (phc : Phc) : Bool :=
  match hashParamsIterations { id := phc.id, params := phc.params, salt := none } with
  | some n => decide (n < cfg.pbkdf2MinIterations)
  | none => false

/-- `_addPasswordToken` from `tokens.js` (current version): deserialize the
supplied PHC string, enforce the configured minimum iteration count, store
only `{id, params, salt}` plus the fast hash of the full serialized slow
hash, then singleton-replace via `setToken`. -/
def _addPasswordToken (cfg : Config) (db : Db) (accountId : String) (token : Token)
    (hash : Option String) : Except BError Db := do
  match hash with
  | none => .error (.assertionError "hash (string) is required")
  | some h =>
    let phc ← deserializePhc h
    if phcBelowMinIterations cfg phc then
      .error (.constraintError
        ("Iteration count must be at least " ++ toString cfg.pbkdf2MinIterations ++ "."))
    else
      let token := { token with
        hashParameters := some { id := phc.id, params := phc.params, salt := some phc.salt },
        sha256 := some (.digest (fastHash none h false)) }
      setToken db accountId SingletonType.password token

/-- `_addTotpToken` from `tokens.js` (current version): fail with
`DuplicateError` when a totp token is already set (before any write),
otherwise store the generated secret and key URI (both external, injected)
via `setToken`. -/
def _addTotpToken (db : Db) (accountId : String) (token : Token)
    (generatedSecret : String) (keyUri : String) : Except BError Db := do
  let record ← getAccountRecord db accountId none TokenType.totp false
  if record.meta.tokens.totp.isSome then
    .error (.duplicateError "TOTP authentication token already set.")
  else
    let token := { token with
      secret := some generatedSecret, otpAuthUrl := some keyUri }
    setToken db accountId SingletonType.totp token

/-! ### Client registration guard (`clients.js`) -/

/-- Client registration events (`bedrock-authn-token.client.<type>`). -/
inductive ClientEvent where
  | created
  | authenticated
  | warning
deriving DecidableEq, Repr

/-- `isRegistered` from `clients.js`: true iff the account has a client
entry under the hashed id whose stored `id` equals that hash and which is
marked authenticated; a missing account reads as not registered. -/
def isRegistered (db : Db) (accountId : String) (clientId : String) :
    Except BError Bool :=
  let key := fastHashBase64 clientId
  match brAccountGet db accountId with
  | .ok record =>
    match record.meta.clients.find? (fun kv => kv.1 = key) with
    | some kv => .ok (decide (kv.2.id = key) && kv.2.authenticated)
    | none => .ok false
  | .error e => if e.isNotFound then .ok false else .error e

/-- Outcome of `clients.set`: the thrown error (if any), the resulting
collection state and the emitted events. -/
structure ClientsSetResult where
  result : Except BError Unit
  db : Db
  events : List ClientEvent
deriving Repr

/-- Insert or replace a client entry (`tokenMeta.clients[key] = client`). -/
def setClientEntry (clients : List (String × Client)) (key : String) (client : Client) :
    List (String × Client) :=
  if clients.any (fun kv => kv.1 = key) then
    clients.map (fun kv => if kv.1 = key then (kv.1, client) else kv)
  else clients ++ [(key, client)]

/-- `clients.set` from `clients.js`.  Faithful to the source control flow:
the non-warning path `return`s from inside the update loop, so the
`created` / `authenticated` notification block below it is never reached —
only the `warning` event can be emitted.  The update loop's
`InvalidStateError` retry cannot trigger in this sequential model.  The
rethrown message suffers the same `+ ... ? ... : ...` precedence slip as
`removeToken`. -/
def clientsSet (db : Db) (accountId : String) (clientId : String)
    (authenticated : Bool) (notify : Bool) : ClientsSetResult :=
  let key := fastHashBase64 clientId
  let client : Client := { id := key, authenticated := authenticated }
  let registeredResult : Except BError Bool :=
    if authenticated then isRegistered db accountId clientId else .ok false
  match registeredResult with
  | .error e => { result := .error e, db := db, events := [] }
  | .ok registered =>
    let warning := registered  -- only set when `authenticated` was checked
    if !warning then
      match brAccountGet db accountId with
      | .error e =>
        { result := .error (if e.isNotFound then .notFoundError " Account not found."
            else .operationError " Account not found."),
          db := db, events := [] }
      | .ok record =>
        let meta := { record.meta with
          sequence := record.meta.sequence + 1,
          clients := setClientEntry record.meta.clients key client }
        match brAccountUpdate db accountId meta with
        | .ok db' => { result := .ok (), db := db', events := [] }
        | .error e =>
          { result := .error (if e.isNotFound then .notFoundError " Account not found."
              else .operationError " Account not found."),
            db := db, events := [] }
    else
      let events := if notify then [ClientEvent.warning] else []
      { result := .error (.duplicateError
          ("Could not set account token client as authenticated; token client " ++
            "already authenticated.")),
        db := db, events := events }

/-! ### Concrete fixtures used in counterexamples and witnesses -/

/-- A machine-entry nonce token whose challenge is `"unguessable-a"`. -/
def nonceTokenA : Token :=
  { id := "nonce-a", sha256 := some (.digest (fastHash none "unguessable-a" false)),
    expires := some 1000 }

/-- An account holding exactly the nonce token `nonceTokenA`. -/
def accountRecordA : AccountRecord :=
  { account := { id := "acct-a", email := some "a@example.com" },
    meta := { sequence := 0, tokens := { nonce := [nonceTokenA] } } }

/-- Collection holding `accountRecordA`. -/
def dbA : Db := [accountRecordA]

/-- The verified identity `verify` reports for `accountRecordA`. -/
def verifyOkA : VerifyOk :=
  { id := "acct-a", email := some "a@example.com", tokenType := TokenType.nonce,
    authenticationMethod := "nonce" }

/-- First nonce token of the removal fixture. -/
def nonceTokenB1 : Token :=
  { id := "nonce-b1", sha256 := some (.digest (fastHash none "unguessable-b1" false)),
    expires := some 1000 }

/-- Second nonce token of the removal fixture. -/
def nonceTokenB2 : Token :=
  { id := "nonce-b2", sha256 := some (.digest (fastHash none "unguessable-b2" false)),
    expires := some 1000 }

/-- An account holding the two nonce tokens above. -/
def accountRecordB : AccountRecord :=
  { account := { id := "acct-b", email := none },
    meta := { sequence := 7, tokens := { nonce := [nonceTokenB1, nonceTokenB2] } } }

/-- Collection holding `accountRecordB`. -/
def dbB : Db := [accountRecordB]

/-- A legacy bcrypt password token: top-level `salt`, no `hashParameters`,
fast hash stored as the base64 prefixed sha256 of the bcrypt hash. -/
def legacyPasswordToken : Token :=
  { id := "pw-legacy", sha256 := some (.base64 (prefixedHash "$2b$10$legacyhashvalue")),
    salt := some "$2b$10$legacysalt" }

/-- An account holding only the legacy password token. -/
def accountRecordL : AccountRecord :=
  { account := { id := "acct-l", email := none },
    meta := { sequence := 0, tokens := { password := some legacyPasswordToken } } }

/-- Collection holding `accountRecordL`. -/
def dbL : Db := [accountRecordL]

/-- A legacy bcrypt nonce token (unexpired), for the amended C5 witness. -/
def legacyNonceToken : Token :=
  { id := "nonce-legacy", sha256 := some (.base64 (prefixedHash "$2b$10$legacyhashvalue")),
    salt := some "$2b$10$legacysalt", expires := some 1000 }

/-- An account holding one legacy and one current nonce token. -/
def accountRecordM : AccountRecord :=
  { account := { id := "acct-m", email := none },
    meta := { sequence := 2, tokens := { nonce := [legacyNonceToken, nonceTokenA] } } }

/-- An account that already has a totp token set. -/
def accountRecordT : AccountRecord :=
  { account := { id := "acct-t", email := some "t@example.com" },
    meta := { sequence := 3,
              tokens := { totp := some { id := "totp-1", secret := some "OLDSECRET" } } } }

/-- An account with an existing password token, for singleton replacement. -/
def accountRecordP : AccountRecord :=
  { account := { id := "acct-p", email := none },
    meta := { sequence := 4,
              tokens := { password := some { id := "pw-old", sha256 := some (.digest (fastHash none "$pbkdf2-sha512$i=100000$b2xk$b2xk" false)) } } } }

/-- A fresh account with no registered clients. -/
def accountRecordC : AccountRecord :=
  { account := { id := "acct-c", email := none }, meta := { sequence := 0 } }

/-- An account whose client `"cookie-1"` is registered and authenticated. -/
def accountRecordC2 : AccountRecord :=
  { account := { id := "acct-c2", email := none },
    meta := { sequence := 5,
              clients := [(fastHashBase64 "cookie-1",
                { id := fastHashBase64 "cookie-1", authenticated := true })] } }

/-- Five pending unexpired machine nonce tokens (the configured maximum). -/
def fullNonceList : List Token :=
  [ { id := "n1", sha256 := some (.digest (fastHash none "c1" false)), expires := some 1000 },
    { id := "n2", sha256 := some (.digest (fastHash none "c2" false)), expires := some 1000 },
    { id := "n3", sha256 := some (.digest (fastHash none "c3" false)), expires := some 1000 },
    { id := "n4", sha256 := some (.digest (fastHash none "c4" false)), expires := some 1000 },
    { id := "n5", sha256 := some (.digest (fastHash none "c5" false)), expires := some 1000 } ]

/-- An account at the configured nonce bound. -/
def accountRecordF : AccountRecord :=
  { account := { id := "acct-f", email := none },
    meta := { sequence := 1, tokens := { nonce := fullNonceList } } }

/-- A sample valid serialized PHC string. -/
def sampleHash : String := "$pbkdf2-sha512$i=100000$QUFB$QkJC"

/-! ## Theorems -/

/-- `dischargeFirst` computes exactly "erase at the first matching index". -/
theorem dischargeFirst_eq_findIdx (m : String) (l : List ReqEntry) :
    dischargeFirst l m =
      (l.findIdx? (fun d => reqMatches d m)).map (fun i => l.eraseIdx i) := by
  induction l with
  | nil => rfl
  | cons d rest ih =>
    by_cases h : reqMatches d m
    · simp [dischargeFirst, h, List.findIdx?_cons]
    · simp only [dischargeFirst, h, if_false, List.findIdx?_cons, List.findIdx?_succ,
        Option.map_map, ih]
      simp only [Bool.false_eq_true, if_false, Option.map_map]
      rcases List.findIdx? (fun d => reqMatches d m) rest with _ | i <;> rfl

/-- The source's splice-at-found-index step equals the spec's greedy
first-discharge step. -/
theorem removeFirstMatch_eq_dischargeFirst (l : List ReqEntry) (m : String) :
    removeFirstMatch l m = (dischargeFirst l m).getD l := by
  rw [dischargeFirst_eq_findIdx, removeFirstMatch]
  cases h : l.findIdx? (fun d => reqMatches d m) <;> simp [h]

/-- C6: `checkAuthenticationRequirements(required, satisfied)` implements
greedy first-match: starting from a copy of `required`, each identifier of
`satisfied` in list order removes the first remaining entry it discharges
(an equal single identifier, or membership in a group array), and the
result is true iff the remaining list becomes empty; in particular, for
`required = [["a","b"],"c"]` the result with `satisfied = ["b","c"]` is
true and with `satisfied = ["b"]` is false. -/
theorem checkAuthenticationRequirements_greedy_first_match :
    (∀ required satisfied,
      checkAuthenticationRequirements required satisfied =
        greedyFirstMatchSpec required satisfied) ∧
    checkAuthenticationRequirements
      [ReqEntry.group ["a", "b"], ReqEntry.single "c"] ["b", "c"] = true ∧
    checkAuthenticationRequirements
      [ReqEntry.group ["a", "b"], ReqEntry.single "c"] ["b"] = false := by
  refine ⟨?_, by decide, by decide⟩
  intro required satisfied
  unfold checkAuthenticationRequirements greedyFirstMatchSpec
  rw [show removeFirstMatch = (fun u m => (dischargeFirst u m).getD u) from
    funext fun u => funext fun m => removeFirstMatch_eq_dischargeFirst u m]

/-- Each human-entry output character is a decimal digit, for byte
inputs. -/
theorem nonceDigit_isDigit (b : Nat) (hb : b < 256) : (nonceDigit b).isDigit = true := by
  have h9 : b * 9 / 255 ≤ 9 := by
    have h1 : b * 9 ≤ 2295 := by omega
    have h2 : b * 9 / 255 ≤ 2295 / 255 := Nat.div_le_div_right h1
    simpa using h2
  unfold nonceDigit
  interval_cases h : b * 9 / 255 <;> decide

/-- C10: `generateNonce` with entryStyle `human` returns a string of
exactly 6 characters, each a decimal digit 0-9 (given the six random bytes
drawn by the source); with entryStyle `machine` it returns the
base58-encoded `bnid` identifier; any other entryStyle value throws an
error. -/
theorem generateNonce_entry_styles :
    (∀ (bytes : List Nat) (gid : String), bytes.length = 6 →
      (∀ b ∈ bytes, b < 256) →
      ∃ s, generateNonce "human" bytes gid = .ok s ∧
        s.length = 6 ∧ ∀ c ∈ s.data, c.isDigit = true) ∧
    (∀ (bytes : List Nat) (gid : String), isBase58 gid = true →
      ∃ s, generateNonce "machine" bytes gid = .ok s ∧ isBase58 s = true) ∧
    (∀ (style : String) (bytes : List Nat) (gid : String),
      style ≠ "human" → style ≠ "machine" →
      ∃ msg, generateNonce style bytes gid = .error msg) := by
  refine ⟨?_, ?_, ?_⟩
  · intro bytes gid hlen hbytes
    refine ⟨⟨bytes.map nonceDigit⟩, rfl, ?_, ?_⟩
    · simpa [String.length] using hlen
    · intro c hc
      simp only [String.data] at hc
      obtain ⟨b, hb, rfl⟩ := List.mem_map.mp hc
      exact nonceDigit_isDigit b (hbytes b hb)
  · intro bytes gid hgid
    exact ⟨gid, rfl, hgid⟩
  · intro style bytes gid h1 h2
    refine ⟨"Invalid entryStyle " ++ style ++ "; entryStyle must be human or machine.", ?_⟩
    unfold generateNonce
    rw [if_neg h1, if_neg h2]

/-- Witness for C10 at concrete inputs. -/
theorem generateNonce_entry_styles_witness :
    (∃ s, generateNonce "human" [0, 50, 100, 150, 200, 255] "3mJr" = .ok s ∧
      s.length = 6 ∧ ∀ c ∈ s.data, c.isDigit = true) ∧
    (∃ s, generateNonce "machine" [] "3mJr" = .ok s ∧ isBase58 s = true) ∧
    (∃ msg, generateNonce "qr" [] "3mJr" = .error msg) :=
  ⟨generateNonce_entry_styles.1 [0, 50, 100, 150, 200, 255] "3mJr" (by decide) (by decide),
   generateNonce_entry_styles.2.1 [] "3mJr" (by decide),
   generateNonce_entry_styles.2.2 "qr" [] "3mJr" (by decide) (by decide)⟩

/-! ### Lemmas about the modelled JS string primitives -/

/-- Splitting a list free of the separator yields the single fragment. -/
theorem splitOnCharList_of_not_mem (sep : Char) (l : List Char) (h : sep ∉ l) :
    splitOnCharList sep l = [l] := by
  induction l with
  | nil => rfl
  | cons c rest ih =>
    have hc : c ≠ sep := fun hcs => h (hcs ▸ List.mem_cons_self c rest)
    have hr : sep ∉ rest := fun hm => h (List.mem_cons_of_mem c hm)
    simp [splitOnCharList, hc, ih hr]

/-- Splitting at the first separator occurrence. -/
theorem splitOnCharList_append (sep : Char) (l1 l2 : List Char) (h : sep ∉ l1) :
    splitOnCharList sep (l1 ++ sep :: l2) = l1 :: splitOnCharList sep l2 := by
  induction l1 with
  | nil => simp [splitOnCharList]
  | cons c rest ih =>
    have hc : c ≠ sep := fun hcs => h (hcs ▸ List.mem_cons_self c rest)
    have hr : sep ∉ rest := fun hm => h (List.mem_cons_of_mem c hm)
    simp only [List.cons_append, splitOnCharList, if_neg hc, List.append_eq, ih hr]

/-- `natDecCharsFuel` is fuel-insensitive once the fuel exceeds the
input. -/
theorem natDecCharsFuel_congr :
    ∀ (f1 f2 n : Nat), n < f1 → n < f2 → natDecCharsFuel f1 n = natDecCharsFuel f2 n := by
  intro f1
  induction f1 with
  | zero => omega
  | succ f1 ih =>
    intro f2 n h1 h2
    cases f2 with
    | zero => omega
    | succ f2 =>
      show (if n < 10 then [decDigitChar n]
          else natDecCharsFuel f1 (n / 10) ++ [decDigitChar (n % 10)])
        = (if n < 10 then [decDigitChar n]
          else natDecCharsFuel f2 (n / 10) ++ [decDigitChar (n % 10)])
      by_cases h : n < 10
      · rw [if_pos h, if_pos h]
      · rw [if_neg h, if_neg h]
        have hdiv : n / 10 < n := Nat.div_lt_self (by omega) (by omega)
        rw [ih f2 (n / 10) (by omega) (by omega)]

/-- The defining recurrence of `natDecChars`. -/
theorem natDecChars_eq (n : Nat) :
    natDecChars n = if n < 10 then [decDigitChar n]
      else natDecChars (n / 10) ++ [decDigitChar (n % 10)] := by
  show (if n < 10 then [decDigitChar n]
      else natDecCharsFuel n (n / 10) ++ [decDigitChar (n % 10)]) = _
  by_cases h : n < 10
  · rw [if_pos h, if_pos h]
  · rw [if_neg h, if_neg h]
    have hdiv : n / 10 < n := Nat.div_lt_self (by omega) (by omega)
    rw [natDecCharsFuel_congr n (n / 10 + 1) (n / 10) (by omega) (by omega)]
    rfl

/-- `natDecChars` is never empty. -/
theorem natDecChars_ne_nil (n : Nat) : natDecChars n ≠ [] := by
  rw [natDecChars_eq]
  split
  · simp
  · simp

/-- `decDigitChar` always yields a decimal digit character. -/
theorem decDigitChar_isDigit (d : Nat) : (decDigitChar d).isDigit = true := by
  unfold decDigitChar
  split <;> decide

/-- `decDigitVal` inverts `decDigitChar` on digits. -/
theorem decDigitVal_decDigitChar (d : Nat) (h : d < 10) :
    decDigitVal (decDigitChar d) = d := by
  interval_cases d <;> decide

/-- All characters of `natDecChars` are digits. -/
theorem natDecChars_digits (n : Nat) : ∀ c ∈ natDecChars n, c.isDigit = true := by
  induction n using Nat.strong_induction_on with
  | _ n ih =>
    rw [natDecChars_eq]
    split
    · intro c hc
      rw [List.mem_singleton] at hc
      exact hc ▸ decDigitChar_isDigit n
    · intro c hc
      rcases List.mem_append.mp hc with h1 | h2
      · exact ih (n / 10) (Nat.div_lt_self (by omega) (by omega)) c h1
      · rw [List.mem_singleton] at h2
        exact h2 ▸ decDigitChar_isDigit (n % 10)

/-- Value computed by the digit fold over `natDecChars`. -/
theorem foldl_decVal_natDecChars (n : Nat) :
    ∀ a, (natDecChars n).foldl (fun a c => a * 10 + decDigitVal c) a =
      a * 10 ^ (natDecChars n).length + n := by
  induction n using Nat.strong_induction_on with
  | _ n ih =>
    intro a
    rw [natDecChars_eq]
    split
    · next h =>
      simp [List.foldl, decDigitVal_decDigitChar n h]
    · next h =>
      rw [List.foldl_append, List.length_append]
      rw [ih (n / 10) (Nat.div_lt_self (by omega) (by omega)) a]
      simp only [List.foldl, List.length]
      rw [decDigitVal_decDigitChar (n % 10) (Nat.mod_lt n (by omega))]
      have hmod : 10 * (n / 10) + n % 10 = n := Nat.div_add_mod n 10
      ring_nf
      omega

/-- `parseDecNat` inverts the canonical decimal printer. -/
theorem parseDecNat_natDecChars (n : Nat) : parseDecNat (natDecChars n) = some n := by
  unfold parseDecNat
  rw [if_pos ⟨natDecChars_ne_nil n, List.all_eq_true.mpr (natDecChars_digits n)⟩]
  rw [foldl_decVal_natDecChars n 0]
  simp

/-- A digit character is not a separator or sign character. -/
theorem isDigit_ne_special (c : Char) (h : c.isDigit = true) :
    c ≠ '$' ∧ c ≠ ',' ∧ c ≠ '=' ∧ c ≠ '-' := by
  refine ⟨?_, ?_, ?_, ?_⟩ <;> rintro rfl <;> simp at h

/-- Every character of `intDecString` is a minus sign or a digit. -/
theorem intDecString_chars (n : Int) :
    ∀ c ∈ (intDecString n).data, c = '-' ∨ c.isDigit = true := by
  cases n with
  | ofNat m =>
    intro c hc
    exact Or.inr (natDecChars_digits m c hc)
  | negSucc m =>
    intro c hc
    rcases List.mem_cons.mp hc with h | h
    · exact Or.inl h
    · exact Or.inr (natDecChars_digits (m + 1) c h)

/-- `canonicalInt?` inverts the modelled `Number#toString`. -/
theorem canonicalInt?_intDecString (n : Int) :
    canonicalInt? (intDecString n) = some n := by
  cases n with
  | ofNat m =>
    rcases hnc : natDecChars m with _ | ⟨c, rest⟩
    · exact absurd hnc (natDecChars_ne_nil m)
    · have hcdig : c.isDigit = true :=
        natDecChars_digits m c (by rw [hnc]; exact List.mem_cons_self c rest)
      have hcne : c ≠ '-' := by
        intro hceq
        subst hceq
        simp at hcdig
      have hparse : parseDecNat (c :: rest) = some m := by
        rw [← hnc]
        exact parseDecNat_natDecChars m
      simp [canonicalInt?, intDecString, hnc, hparse, hcne]
  | negSucc m =>
    have hneg : -((m + 1 : Nat) : Int) = Int.negSucc m := by
      rw [Int.negSucc_eq]
      simp
    show canonicalInt? ⟨'-' :: natDecChars (m + 1)⟩ = some (Int.negSucc m)
    unfold canonicalInt?
    dsimp only
    rw [if_pos rfl, parseDecNat_natDecChars (m + 1)]
    dsimp only [Option.bind]
    rw [if_neg (by omega : ¬(m + 1 = 0))]
    rw [hneg]
    dsimp only [intDecString]
    rw [if_pos rfl]

/-- Splitting starting at a separator. -/
theorem splitOnCharList_cons_sep (sep : Char) (l : List Char) :
    splitOnCharList sep (sep :: l) = [] :: splitOnCharList sep l := by
  simp [splitOnCharList]

/-- A base64 string contains no PHC field separator. -/
theorem isBase64NoPad_no_dollar (s : String) (h : isBase64NoPad s = true) :
    ('$' : Char) ∉ s.data := by
  intro hm
  have hc := List.all_eq_true.mp h _ hm
  simp at hc

/-- The character list of the one-character string `"$"`. -/
theorem dollar_data : "$".data = ['$'] := rfl

/-- Characters of `intDecString` are never PHC separators. -/
theorem intDecString_no_special (n : Int) :
    ∀ c ∈ (intDecString n).data, c ≠ '$' ∧ c ≠ ',' ∧ c ≠ '=' := by
  intro c hc
  rcases intDecString_chars n c hc with h | h
  · subst h
    exact ⟨by decide, by decide, by decide⟩
  · have hs := isDigit_ne_special c h
    exact ⟨hs.1, hs.2.1, hs.2.2.1⟩

/-- The `$`-split of a serialized PHC string recovers the four fields. -/
theorem jsSplit_serialized (a b c d : String)
    (ha : ('$' : Char) ∉ a.data) (hb : ('$' : Char) ∉ b.data)
    (hc : ('$' : Char) ∉ c.data) (hd : ('$' : Char) ∉ d.data) :
    jsSplit '$' ("$" ++ a ++ "$" ++ b ++ "$" ++ c ++ "$" ++ d) = ["", a, b, c, d] := by
  unfold jsSplit
  have hdata : ("$" ++ a ++ "$" ++ b ++ "$" ++ c ++ "$" ++ d).data
      = '$' :: (a.data ++ '$' :: (b.data ++ '$' :: (c.data ++ '$' :: d.data))) := by
    simp [String.data_append, dollar_data]
  rw [hdata, splitOnCharList_cons_sep,
    splitOnCharList_append '$' a.data _ ha,
    splitOnCharList_append '$' b.data _ hb,
    splitOnCharList_append '$' c.data _ hc,
    splitOnCharList_of_not_mem '$' d.data hd]
  rfl

/-- Round trip of PHC serialization for the supported shape. -/
theorem deserializePhc_serializePhc (n : Int) (salt hash : String)
    (hs : isBase64NoPad salt = true) (hh : isBase64NoPad hash = true) :
    deserializePhc (serializePhc
        { id := "pbkdf2-sha512", params := [("i", .num n)], salt := salt, hash := hash })
      = .ok { id := "pbkdf2-sha512", params := [("i", .num n)], salt := salt, hash := hash } := by
  have hint := intDecString_no_special n
  have hsd := isBase64NoPad_no_dollar salt hs
  have hhd := isBase64NoPad_no_dollar hash hh
  have hser : serializePhc
      { id := "pbkdf2-sha512", params := [("i", PhcParamValue.num n)], salt := salt, hash := hash }
      = "$" ++ "pbkdf2-sha512" ++ "$" ++ ("i" ++ "=" ++ intDecString n) ++ "$" ++ salt ++ "$" ++ hash := rfl
  have hi : "i".data = ['i'] := rfl
  have he : "=".data = ['='] := rfl
  have hpd : ("i" ++ "=" ++ intDecString n).data = 'i' :: '=' :: (intDecString n).data := by
    simp [String.data_append, hi, he]
  have hpnod : ('$' : Char) ∉ ("i" ++ "=" ++ intDecString n).data := by
    rw [hpd]
    intro hm
    simp only [List.mem_cons] at hm
    rcases hm with h | h | h
    · exact absurd h (by decide)
    · exact absurd h (by decide)
    · exact (hint _ h).1 rfl
  have hidnod : ('$' : Char) ∉ ("pbkdf2-sha512" : String).data := by decide
  rw [hser]
  unfold deserializePhc
  rw [jsSplit_serialized _ _ _ _ hidnod hpnod hsd hhd]
  have hnoc : (',' : Char) ∉ ("i" ++ "=" ++ intDecString n).data := by
    rw [hpd]
    intro hm
    simp only [List.mem_cons] at hm
    rcases hm with h | h | h
    · exact absurd h (by decide)
    · exact absurd h (by decide)
    · exact (hint _ h).2.1 rfl
  have hnoe : ('=' : Char) ∉ (intDecString n).data := by
    intro hm
    exact (hint _ hm).2.2 rfl
  have hsplitComma : jsSplit ',' ("i" ++ "=" ++ intDecString n)
      = ["i" ++ "=" ++ intDecString n] := by
    unfold jsSplit
    rw [splitOnCharList_of_not_mem ',' _ hnoc]
    rfl
  have hsplitEq : jsSplit '=' ("i" ++ "=" ++ intDecString n) = ["i", intDecString n] := by
    unfold jsSplit
    rw [hpd]
    rw [show ('i' :: '=' :: (intDecString n).data)
        = ['i'] ++ '=' :: (intDecString n).data from rfl]
    rw [splitOnCharList_append '=' ['i'] _ (by decide),
      splitOnCharList_of_not_mem '=' _ hnoe]
    rfl
  have hparse : parsePhcParam ("i" ++ "=" ++ intDecString n)
      = ("i", PhcParamValue.str (intDecString n)) := by
    unfold parsePhcParam
    rw [hsplitEq]
  simp only [List.getD_cons_succ, List.getD_cons_zero]
  rw [if_neg (not_not_intro rfl)]
  simp only [hsplitComma, List.map_cons, List.map_nil, hparse]
  simp only [jsFromEntries, List.foldl, List.any_nil, Bool.false_eq_true, if_false,
    List.nil_append]
  simp only [canonicalizeParam, canonicalInt?_intDecString n]
  simp [canonicalInt?_intDecString n]

/-- `set(password, h)` followed by `get(password)` stores and returns hash
parameters with the algorithm id, params and salt deserialized from `h`. -/
theorem addPasswordToken_then_get (cfg : Config) (r : AccountRecord)
    (gid : String) (am : Option String) (reqs : List ReqEntry)
    (h : String) (phc : Phc) (now : Nat)
    (hphc : deserializePhc h = .ok phc)
    (hmin : phcBelowMinIterations cfg phc = false) :
    ∃ db', _addPasswordToken cfg [r] r.account.id (_initToken gid am reqs) (some h)
        = .ok db' ∧
      get db' r.account.id TokenType.password none true now = .ok
        { _initToken gid am reqs with
          hashParameters := some { id := phc.id, params := phc.params, salt := some phc.salt },
          sha256 := some (.digest (fastHash none h false)) } := by
  refine ⟨[{ r with meta := { r.meta with tokens := { r.meta.tokens with
      password := some { _initToken gid am reqs with
        hashParameters := some { id := phc.id, params := phc.params, salt := some phc.salt },
        sha256 := some (.digest (fastHash none h false)) } } } }], ?_, ?_⟩
  · unfold _addPasswordToken
    dsimp only
    rw [hphc]
    simp [hmin, setToken, updateOne, List.findIdx?_cons, _initToken, Bind.bind, Except.bind]
  · unfold get getAccountRecord brAccountGet
    simp [List.find?, TokensMap.get, _initToken]
    rfl

/-- C7: for every PHC object with id `pbkdf2-sha512`, a single integer
iteration parameter `i`, and base64 (unpadded) salt and hash strings,
`deserializePhc(serializePhc(phc))` returns the same algorithm id,
iteration count, salt and hash; `deserializePhc` raises a
`SyntaxError`-kind error on an unsupported algorithm id or unsupported
parameters; and after `set(password, h)` with a valid serialized PHC
string followed immediately by `get(password)`, the stored
`hashParameters` carry the same algorithm id, params and salt that
deserializing `h` yields. -/
theorem phc_round_trip_and_password_set_get :
    (∀ (n : Int) (salt hash : String),
      isBase64NoPad salt = true → isBase64NoPad hash = true →
      deserializePhc (serializePhc
          { id := "pbkdf2-sha512", params := [("i", .num n)], salt := salt, hash := hash })
        = .ok { id := "pbkdf2-sha512", params := [("i", .num n)], salt := salt, hash := hash }) ∧
    (∃ msg, deserializePhc "$argon2id$i=100000$QUFB$QkJC" = .error (.syntaxError msg)) ∧
    (∃ msg, deserializePhc "$pbkdf2-sha512$i=10,r=2$QUFB$QkJC" = .error (.syntaxError msg)) ∧
    (∀ (cfg : Config) (r : AccountRecord) (gid : String) (am : Option String)
      (reqs : List ReqEntry) (h : String) (phc : Phc) (now : Nat),
      deserializePhc h = .ok phc →
      phcBelowMinIterations cfg phc = false →
      ∃ db', _addPasswordToken cfg [r] r.account.id (_initToken gid am reqs) (some h)
          = .ok db' ∧
        get db' r.account.id TokenType.password none true now = .ok
          { _initToken gid am reqs with
            hashParameters := some { id := phc.id, params := phc.params, salt := some phc.salt },
            sha256 := some (.digest (fastHash none h false)) }) :=
  ⟨deserializePhc_serializePhc,
   ⟨"Unsupported hash algorithm argon2id.", rfl⟩,
   ⟨"Unsupported parameters i=10,r=2.", rfl⟩,
   addPasswordToken_then_get⟩

/-- Witness for C7 at a concrete PHC object and account. -/
theorem phc_round_trip_and_password_set_get_witness :
    deserializePhc (serializePhc
        { id := "pbkdf2-sha512", params := [("i", .num 100000)], salt := "QUFB", hash := "QkJC" })
      = .ok { id := "pbkdf2-sha512", params := [("i", .num 100000)], salt := "QUFB", hash := "QkJC" } ∧
    (∃ db', _addPasswordToken {} [accountRecordP] "acct-p" (_initToken "tok-1" none []) (some sampleHash)
        = .ok db' ∧
      get db' "acct-p" TokenType.password none true 100 = .ok
        { _initToken "tok-1" none [] with
          hashParameters := some { id := "pbkdf2-sha512", params := [("i", .num 100000)], salt := some "QUFB" },
          sha256 := some (.digest (fastHash none sampleHash false)) }) := by
  constructor
  · exact phc_round_trip_and_password_set_get.1 100000 "QUFB" "QkJC" (by decide) (by decide)
  · exact phc_round_trip_and_password_set_get.2.2.2 {} accountRecordP "tok-1" none [] sampleHash
      { id := "pbkdf2-sha512", params := [("i", .num 100000)], salt := "QUFB", hash := "QkJC" }
      100 (by rfl) (by rfl)

/-- C1 (code bug): `verify` does not consume a nonce.  On the fixture
account, a first `verify` with the correct proof succeeds but leaves the
database unchanged (the internal `remove` call passes `account` instead of
`accountId`, its assertion failure is swallowed because the token has
`expires`), and a second `verify` with the same proof succeeds again
instead of raising `NotFoundError`. -/
theorem verify_nonce_not_one_shot :
    verify dbA "acct-a" none TokenType.nonce none (some "unguessable-a") [] 100
        (fun _ _ => false)
      = (.ok (some verifyOkA), dbA) ∧
    verify (verify dbA "acct-a" none TokenType.nonce none (some "unguessable-a") [] 100
        (fun _ _ => false)).2
        "acct-a" none TokenType.nonce none (some "unguessable-a") [] 100
        (fun _ _ => false)
      = (.ok (some verifyOkA), dbA) := by
  constructor
  · rfl
  · rfl

/-- C2 (code bug): targeted nonce removal removes nothing.  On an account
holding two nonce tokens, `removeToken(accountId, 'nonce', 'nonce-b1')`
succeeds and bumps the sequence number, but both tokens are still stored
because the filter compares each token object against its own id
(`t !== t.id`), which always holds; the `NotFoundError` cases for a
missing account and a missing token id do work. -/
theorem removeToken_targeted_removal_keeps_tokens :
    removeToken dbB "acct-b" TokenType.nonce (some "nonce-b1")
      = .ok [{ accountRecordB with
          meta := { accountRecordB.meta with sequence := 8 } }] ∧
    ([{ accountRecordB with meta := { accountRecordB.meta with sequence := 8 } }].map
        (fun r => r.meta.tokens.nonce)) = [[nonceTokenB1, nonceTokenB2]] ∧
    (∃ msg, removeToken dbB "acct-b" TokenType.nonce (some "no-such-id")
      = .error (.notFoundError msg)) ∧
    (∃ msg, removeToken dbB "missing-account" TokenType.nonce (some "nonce-b1")
      = .error (.notFoundError msg)) := by
  refine ⟨by rfl, by rfl, ⟨" Account or token not found.", by rfl⟩,
    ⟨" Account or token not found.", by rfl⟩⟩

/-- Setting an index to the element already there is the identity. -/
theorem list_set_getElem_self {α : Type} :
    ∀ (l : List α) (i : Nat) (h : i < l.length), l.set i l[i] = l := by
  intro l
  induction l with
  | nil => intro i h; simp at h
  | cons a t ih =>
    intro i h
    cases i with
    | zero => rfl
    | succ j =>
      simp only [List.set_cons_succ, List.getElem_cons_succ]
      rw [ih j (by simpa using h)]

/-- `updateOne` preserves any projection untouched by the update. -/
theorem updateOne_map_eq {α : Type} (db : Db) (pred : AccountRecord → Bool)
    (f : AccountRecord → AccountRecord) (g : AccountRecord → α)
    (hg : ∀ s, g (f s) = g s) :
    ((updateOne db pred f).1).map g = db.map g := by
  unfold updateOne
  cases h : db.findIdx? pred with
  | none => rfl
  | some i =>
    have hi : i < db.length := (List.findIdx?_eq_some_iff_findIdx_eq.mp h).1
    dsimp only
    rw [List.map_set, hg, ← List.getD_map db default g,
      List.getD_eq_getElem _ _ (by simpa using hi)]
    exact list_set_getElem_self _ _ _

/-- A successful `removeToken` on a one-account collection bumps that
account's sequence number by exactly one. -/
theorem seq_removeToken (r : AccountRecord) (ty : TokenType) (id : Option String)
    (db' : Db) (hrm : removeToken [r] r.account.id ty id = .ok db') :
    db'.map (fun s => s.meta.sequence) = [r.meta.sequence + 1] := by
  unfold removeToken at hrm
  rw [brAccountGet] at hrm
  rw [List.find?_cons_of_pos _ (by simp)] at hrm
  dsimp only at hrm
  split at hrm
  case _ db2 heq =>
    cases hrm
    dsimp only [Bind.bind, Except.bind] at heq
    split at heq
    · cases heq
    · rw [brAccountUpdate, List.find?_cons_of_pos _ (by simp)] at heq
      dsimp only at heq
      rw [if_pos rfl] at heq
      cases heq
      simp
  case _ e heq =>
    split at hrm <;> cases hrm

/-- C3 (amended): the sequence-guarded mutation path (`removeToken`)
increments the account's meta sequence number by exactly 1, but the direct
atomic update path used for adding tokens (`setToken` via `$set`,
`pushToken` via `$push`) writes the token field only and leaves the
sequence number unchanged. -/
theorem sequence_change_per_mutation :
    (∀ (r : AccountRecord) (ty : TokenType) (id : Option String) (db' : Db),
      removeToken [r] r.account.id ty id = .ok db' →
      db'.map (fun s => s.meta.sequence) = [r.meta.sequence + 1]) ∧
    (∀ (db : Db) (aid : String) (ty : SingletonType) (tok : Token) (db' : Db),
      setToken db aid ty tok = .ok db' →
      db'.map (fun s => s.meta.sequence) = db.map (fun s => s.meta.sequence)) ∧
    (∀ (db : Db) (aid : String) (tok : Token) (maxCount : Nat),
      ((pushToken db aid tok maxCount).1).map (fun s => s.meta.sequence)
        = db.map (fun s => s.meta.sequence)) := by
  refine ⟨seq_removeToken, ?_, ?_⟩
  · intro db aid ty tok db' hst
    unfold setToken at hst
    dsimp only at hst
    split at hst
    · cases hst
      exact updateOne_map_eq db _ _ _ (fun s => by cases ty <;> rfl)
    · cases hst
  · intro db aid tok maxCount
    have h := updateOne_map_eq db
      (fun r => r.account.id = aid &&
        !(decide ((0 : Int) ≤ (maxCount : Int) - 1) &&
          decide ((maxCount : Int) - 1 < (r.meta.tokens.nonce.length : Int))))
      (fun r => { r with meta := { r.meta with
        tokens := { r.meta.tokens with nonce := r.meta.tokens.nonce ++ [tok] } } })
      (fun s => s.meta.sequence) (fun s => rfl)
    exact h

/-- Counterexample to C3 as stated: a successful credential mutation
(`setToken`, storing a new password token) that leaves the account's
sequence number unchanged at 7 instead of increasing it by exactly 1. -/
theorem sequence_change_per_mutation_cex :
    ∃ db', setToken dbB "acct-b" SingletonType.password { id := "pw-new" } = .ok db' ∧
      dbB.map (fun r => r.meta.sequence) = [7] ∧
      db'.map (fun r => r.meta.sequence) = [7] :=
  ⟨_, rfl, rfl, rfl⟩

/-- Witness for the amended C3 at concrete inputs. -/
theorem sequence_change_per_mutation_witness :
    ([{ accountRecordA with
        meta := { sequence := 1 } }].map (fun s => s.meta.sequence))
      = [accountRecordA.meta.sequence + 1] ∧
    ([{ accountRecordB with
        meta := { accountRecordB.meta with
          tokens := { accountRecordB.meta.tokens with
            password := some { id := "pw-new" } } } }].map (fun s => s.meta.sequence))
      = dbB.map (fun s => s.meta.sequence) ∧
    ((pushToken dbA "acct-a" nonceTokenB1 5).1).map (fun s => s.meta.sequence)
      = dbA.map (fun s => s.meta.sequence) :=
  ⟨sequence_change_per_mutation.1 accountRecordA TokenType.nonce none _ (by rfl),
   sequence_change_per_mutation.2.1 dbB "acct-b" SingletonType.password { id := "pw-new" }
     _ (by rfl),
   sequence_change_per_mutation.2.2 dbA "acct-a" nonceTokenB1 5⟩

/-- `getAllMapToken` only synthesizes `hashParameters`; `salt` and
`expires` are unchanged. -/
theorem getAllMapToken_preserves (ty : TokenType) (t : Token) :
    (getAllMapToken ty t).salt = t.salt ∧ (getAllMapToken ty t).expires = t.expires := by
  unfold getAllMapToken
  split <;> simp

/-- The `getAll` partition puts every unexpired, non-legacy token on the
unexpired side, in order. -/
theorem getAll_split_all_unexpired (now : Nat) :
    ∀ (l : List Token) (acc : List Token × List Token),
    (∀ t ∈ l, tokenUnexpired now t = true ∧ t.salt = none) →
    l.foldl (getAllSplitStep TokenType.nonce now) acc = (acc.1 ++ l, acc.2) := by
  intro l
  induction l with
  | nil =>
    intro acc _
    simp
  | cons t rest ih =>
    intro acc h
    have ht := h t (List.mem_cons_self t rest)
    have hstep : getAllSplitStep TokenType.nonce now acc t = (acc.1 ++ [t], acc.2) := by
      unfold getAllSplitStep
      rw [if_pos ht.1, if_neg (by simp [ht.2])]
    rw [List.foldl_cons, hstep, ih _ (fun x hx => h x (List.mem_cons_of_mem t hx))]
    simp

/-- `pushToken` on an account already holding at least `maxCount` nonce
tokens (with a positive bound) matches nothing: it returns `false` and
leaves the collection unchanged. -/
theorem pushToken_at_bound (r : AccountRecord) (aid : String) (tok : Token)
    (maxCount : Nat) (hm : 1 ≤ maxCount)
    (hfull : maxCount ≤ r.meta.tokens.nonce.length) :
    pushToken [r] aid tok maxCount = ([r], false) := by
  unfold pushToken updateOne
  simp only [List.findIdx?_cons, List.findIdx?_nil]
  rw [if_neg ?hc]
  case hc =>
    intro hcond
    simp at hcond
    omega
  rfl

/-- `pushToken` preserves the nonce-count bound on a one-account
collection. -/
theorem pushToken_preserves_bound (r : AccountRecord) (aid : String) (tok : Token)
    (maxCount : Nat) (hm : 1 ≤ maxCount)
    (hlen : r.meta.tokens.nonce.length ≤ maxCount) :
    ∀ s ∈ (pushToken [r] aid tok maxCount).1, s.meta.tokens.nonce.length ≤ maxCount := by
  unfold pushToken updateOne
  simp only [List.findIdx?_cons, List.findIdx?_nil]
  split
  case h_1 i heq =>
    split at heq
    case isTrue hc =>
      cases heq
      simp at hc
      intro s hs
      simp only [List.set_cons_zero, List.getD_cons_zero, List.mem_singleton] at hs
      subst hs
      simp only [List.length_append, List.length_singleton]
      omega
    case isFalse hc =>
      cases heq
  case h_2 heq =>
    intro s hs
    simp only [List.mem_singleton] at hs
    subst hs
    exact hlen

/-- `_addNonceToken` rejects with `NotAllowedError` citing the configured
maximum whenever `getAll` reports at least `maxNonceCount` pending
unexpired nonces, leaving the state unchanged. -/
theorem addNonceToken_at_bound (cfg : Config) (db : Db) (aid : String) (tok : Token)
    (clientId : Option String) (entryStyle : String) (now : Nat) (bytes : List Nat)
    (gid : String) (kdf : Pbkdf2Fn) (res : GetAllResult)
    (hga : getAll db aid TokenType.nonce now = .ok res)
    (hfull : cfg.maxNonceCount ≤ res.tokens.length) :
    _addNonceToken cfg db aid tok clientId entryStyle now bytes gid kdf
      = (.error (.notAllowedError ("No more than " ++ toString cfg.maxNonceCount ++
          " tokens can be pending at once.")), db) := by
  unfold _addNonceToken
  rw [hga]
  dsimp only
  rw [if_pos hfull]

/-- On an account whose nonce tokens are all unexpired and non-legacy,
`getAll` reports them all as pending. -/
theorem getAll_tokens_count (r : AccountRecord) (now : Nat)
    (h : ∀ t ∈ r.meta.tokens.nonce, tokenUnexpired now t = true ∧ t.salt = none) :
    ∃ res, getAll [r] r.account.id TokenType.nonce now = .ok res ∧
      res.tokens.length = r.meta.tokens.nonce.length := by
  have hmapped : ∀ t ∈ r.meta.tokens.nonce.map (getAllMapToken TokenType.nonce),
      tokenUnexpired now t = true ∧ t.salt = none := by
    intro t ht
    obtain ⟨t0, ht0, rfl⟩ := List.mem_map.mp ht
    have hp := getAllMapToken_preserves TokenType.nonce t0
    have h0 := h t0 ht0
    constructor
    · unfold tokenUnexpired
      rw [hp.2]
      exact h0.1
    · rw [hp.1]
      exact h0.2
  refine ⟨{ allTokens := r.meta.tokens.nonce.map (getAllMapToken TokenType.nonce), tokens := r.meta.tokens.nonce.map (getAllMapToken TokenType.nonce), expiredTokens := [] }, ?_, ?_⟩
  · unfold getAll getAccountRecord brAccountGet
    rw [List.find?_cons_of_pos _ (by simp)]
    dsimp only [Bind.bind, Except.bind]
    rw [if_pos (by cases r.meta.tokens.get TokenType.nonce <;> rfl)]
    dsimp only [TokensMap.get]
    rw [getAll_split_all_unexpired now _ ([], []) hmapped]
    rfl
  · simp

/-- C4: the stored nonce token count never exceeds the configured
`maxNonceCount` (positive bound): `pushToken` preserves the bound and
returns `false` (not an error), leaving the collection unchanged, when
`maxCount` entries already exist; and `set(nonce)` via `_addNonceToken` on
an account whose pending unexpired nonce count is at least `maxNonceCount`
raises `NotAllowedError` with a message citing the configured maximum (an
account all of whose nonces are unexpired and non-legacy reports exactly
its stored count as pending, so eviction of expired nonces cannot make
room). -/
theorem nonce_bound_enforced :
    (∀ (r : AccountRecord) (aid : String) (tok : Token) (maxCount : Nat),
      1 ≤ maxCount → r.meta.tokens.nonce.length ≤ maxCount →
      ∀ s ∈ (pushToken [r] aid tok maxCount).1, s.meta.tokens.nonce.length ≤ maxCount) ∧
    (∀ (r : AccountRecord) (aid : String) (tok : Token) (maxCount : Nat),
      1 ≤ maxCount → maxCount ≤ r.meta.tokens.nonce.length →
      pushToken [r] aid tok maxCount = ([r], false)) ∧
    (∀ (cfg : Config) (db : Db) (aid : String) (tok : Token) (clientId : Option String)
      (entryStyle : String) (now : Nat) (bytes : List Nat) (gid : String)
      (kdf : Pbkdf2Fn) (res : GetAllResult),
      getAll db aid TokenType.nonce now = .ok res →
      cfg.maxNonceCount ≤ res.tokens.length →
      _addNonceToken cfg db aid tok clientId entryStyle now bytes gid kdf
        = (.error (.notAllowedError ("No more than " ++ toString cfg.maxNonceCount ++
            " tokens can be pending at once.")), db)) ∧
    (∀ (r : AccountRecord) (now : Nat),
      (∀ t ∈ r.meta.tokens.nonce, tokenUnexpired now t = true ∧ t.salt = none) →
      ∃ res, getAll [r] r.account.id TokenType.nonce now = .ok res ∧
        res.tokens.length = r.meta.tokens.nonce.length) :=
  ⟨pushToken_preserves_bound, pushToken_at_bound, addNonceToken_at_bound,
   getAll_tokens_count⟩

/-- Witness for C4 on an account at the configured bound of 5. -/
theorem nonce_bound_enforced_witness :
    pushToken [accountRecordF] "acct-f" nonceTokenA 5 = ([accountRecordF], false) ∧
    (∃ res, getAll [accountRecordF] accountRecordF.account.id TokenType.nonce 100 = .ok res ∧
      res.tokens.length = accountRecordF.meta.tokens.nonce.length) ∧
    _addNonceToken {} [accountRecordF] "acct-f" nonceTokenB1 none "machine" 100 [] "3mJr"
        ⟨fun _ st _ => (st, { id := "pbkdf2-sha512", params := [], salt := "QUFB", hash := "QkJC" })⟩
      = (.error (.notAllowedError "No more than 5 tokens can be pending at once."),
         [accountRecordF]) := by
  refine ⟨?_, ?_, ?_⟩
  · exact nonce_bound_enforced.2.1 accountRecordF "acct-f" nonceTokenA 5 (by decide) (by decide)
  · exact nonce_bound_enforced.2.2.2 accountRecordF 100 (by decide)
  · obtain ⟨res, hres, hlen⟩ := nonce_bound_enforced.2.2.2 accountRecordF 100 (by decide)
    exact nonce_bound_enforced.2.2.1 {} [accountRecordF] "acct-f" nonceTokenB1 none "machine"
      100 [] "3mJr"
      ⟨fun _ st _ => (st, { id := "pbkdf2-sha512", params := [], salt := "QUFB", hash := "QkJC" })⟩
      res hres (by rw [hlen]; decide)

/-- Anything on the unexpired side of the nonce partition is salt-free
(or was already in the accumulator). -/
theorem getAll_split_tokens_salt_none (now : Nat) :
    ∀ (l : List Token) (acc : List Token × List Token) (t2 : Token),
      t2 ∈ (l.foldl (getAllSplitStep TokenType.nonce now) acc).1 →
      t2 ∈ acc.1 ∨ t2.salt = none := by
  intro l
  induction l with
  | nil =>
    intro acc t2 h
    exact Or.inl h
  | cons t rest ih =>
    intro acc t2 h
    rcases ih (getAllSplitStep TokenType.nonce now acc t) t2 h with hmem | hsalt
    · unfold getAllSplitStep at hmem
      split at hmem
      · split at hmem
        case isTrue => exact Or.inl hmem
        case isFalse hcond =>
          rcases List.mem_append.mp hmem with hmem1 | hmem1
          · exact Or.inl hmem1
          · rw [List.mem_singleton.mp hmem1]
            right
            simpa using hcond
      · exact Or.inl hmem
    · exact Or.inr hsalt

/-- The expired side of the partition only grows. -/
theorem getAll_split_expired_mono (ty : TokenType) (now : Nat) :
    ∀ (l : List Token) (acc : List Token × List Token) (x : Token),
      x ∈ acc.2 → x ∈ (l.foldl (getAllSplitStep ty now) acc).2 := by
  intro l
  induction l with
  | nil =>
    intro acc x h
    exact h
  | cons t rest ih =>
    intro acc x h
    refine ih (getAllSplitStep ty now acc t) x ?_
    unfold getAllSplitStep
    split
    · split
      · exact List.mem_append_left _ h
      · exact h
    · exact List.mem_append_left _ h

/-- A salt-carrying token always lands on the expired side of the nonce
partition, whatever its expiry. -/
theorem getAll_split_legacy_expired (now : Nat) :
    ∀ (l : List Token) (acc : List Token × List Token) (t : Token),
      t ∈ l → t.salt.isSome = true →
      t ∈ (l.foldl (getAllSplitStep TokenType.nonce now) acc).2 := by
  intro l
  induction l with
  | nil =>
    intro acc t h
    simp at h
  | cons t0 rest ih =>
    intro acc t h hsalt
    rcases List.mem_cons.mp h with rfl | hmem
    · refine getAll_split_expired_mono TokenType.nonce now rest _ t ?_
      unfold getAllSplitStep
      split
      · rw [if_pos ⟨rfl, hsalt⟩]
        exact List.mem_append_right _ (List.mem_singleton_self t)
      · exact List.mem_append_right _ (List.mem_singleton_self t)
    · exact ih _ t hmem hsalt

/-- C5 (amended): the unconditional legacy exclusion applies to the nonce
credential type: `getAll` with type `nonce` never returns a salt-carrying
(legacy) token among the unexpired `tokens`, and places every legacy token
in `expiredTokens` regardless of its `expires` value; a legacy *password*
token, by contrast, is normalized and returned among the unexpired tokens
(see the counterexample); and a direct verify of the token's exact legacy
fast hash (prefixed sha256 of the bcrypt hash, stored as base64) still
succeeds. -/
theorem legacy_token_handling :
    (∀ (db : Db) (aid : String) (now : Nat) (res : GetAllResult),
      getAll db aid TokenType.nonce now = .ok res →
      ∀ t ∈ res.tokens, t.salt = none) ∧
    (∀ (r : AccountRecord) (now : Nat) (res : GetAllResult) (t : Token),
      getAll [r] r.account.id TokenType.nonce now = .ok res →
      t ∈ r.meta.tokens.nonce → t.salt.isSome = true →
      getAllMapToken TokenType.nonce t ∈ res.expiredTokens) ∧
    (∀ (clientId : Option String) (bh : String),
      List.isPrefixOf "$2b".data bh.data = true →
      verifySlowHashOrUnguessableChallenge clientId bh
        (.base64 (prefixedHash (fastHashData clientId bh))) = true) := by
  refine ⟨?_, ?_, ?_⟩
  · intro db aid now res hga t ht
    unfold getAll at hga
    cases hrec : getAccountRecord db aid none TokenType.nonce false with
    | error e =>
      rw [hrec] at hga
      cases hga
    | ok record =>
      rw [hrec] at hga
      dsimp only [Bind.bind, Except.bind] at hga
      cases hga
      rcases getAll_split_tokens_salt_none now _ ([], []) t ht with h | h
      · simp at h
      · exact h
  · intro r now res t hga hmem hsalt
    unfold getAll getAccountRecord brAccountGet at hga
    rw [List.find?_cons_of_pos _ (by simp)] at hga
    dsimp only [Bind.bind, Except.bind] at hga
    rw [if_pos (by cases r.meta.tokens.get TokenType.nonce <;> rfl)] at hga
    dsimp only [TokensMap.get] at hga
    cases hga
    refine getAll_split_legacy_expired now _ ([], []) (getAllMapToken TokenType.nonce t)
      (List.mem_map_of_mem _ hmem) ?_
    rw [(getAllMapToken_preserves TokenType.nonce t).1]
    exact hsalt
  · intro clientId bh hpre
    unfold verifySlowHashOrUnguessableChallenge
    rw [hpre]
    simp [fastHash, StoredHash.toDigest]

/-- Counterexample to C5 as stated ("for every token type"): a legacy
password token (salt present, no hashParameters, no expires) is returned
by `getAll` in the unexpired `tokens` list — normalized with synthesized
bcrypt `hashParameters` — and `expiredTokens` stays empty. -/
theorem legacy_token_handling_cex :
    legacyPasswordToken.salt.isSome = true ∧
    legacyPasswordToken.hashParameters = none ∧
    getAll dbL "acct-l" TokenType.password 100
      = .ok { allTokens := [getAllMapToken TokenType.password legacyPasswordToken], tokens := [getAllMapToken TokenType.password legacyPasswordToken], expiredTokens := [] } ∧
    (getAllMapToken TokenType.password legacyPasswordToken).salt = legacyPasswordToken.salt :=
  ⟨rfl, rfl, rfl, rfl⟩

/-- Witness for the amended C5 on an account holding a legacy and a
current nonce token. -/
theorem legacy_token_handling_witness :
    (∃ res, getAll [accountRecordM] accountRecordM.account.id TokenType.nonce 100 = .ok res ∧
      getAllMapToken TokenType.nonce legacyNonceToken ∈ res.expiredTokens ∧
      ∀ t ∈ res.tokens, t.salt = none) ∧
    verifySlowHashOrUnguessableChallenge none "$2b$10$legacyhashvalue"
      (.base64 (prefixedHash (fastHashData none "$2b$10$legacyhashvalue"))) = true := by
  have hga : getAll [accountRecordM] accountRecordM.account.id TokenType.nonce 100
      = .ok { allTokens := [getAllMapToken TokenType.nonce legacyNonceToken, getAllMapToken TokenType.nonce nonceTokenA], tokens := [getAllMapToken TokenType.nonce nonceTokenA], expiredTokens := [getAllMapToken TokenType.nonce legacyNonceToken] } := rfl
  refine ⟨⟨_, hga, ?_, ?_⟩, ?_⟩
  · exact legacy_token_handling.2.1 accountRecordM 100 _ legacyNonceToken hga
      (by simp [accountRecordM]) (by rfl)
  · exact legacy_token_handling.1 [accountRecordM] accountRecordM.account.id 100 _ hga
  · exact legacy_token_handling.2.2 none "$2b$10$legacyhashvalue" (by decide)

/-- C8: setting a second totp token fails with `DuplicateError` before any
write, and setting a password with a valid PHC hash always replaces the
existing password token without error. -/
theorem totp_duplicate_and_password_replace :
    (∀ (r : AccountRecord) (tok : Token) (sec uri : String),
      r.meta.tokens.totp.isSome = true →
      _addTotpToken [r] r.account.id tok sec uri
        = .error (.duplicateError "TOTP authentication token already set.")) ∧
    (∀ (cfg : Config) (r : AccountRecord) (tok : Token) (h : String) (phc : Phc),
      deserializePhc h = .ok phc →
      phcBelowMinIterations cfg phc = false →
      _addPasswordToken cfg [r] r.account.id tok (some h)
        = .ok [{ r with meta := { r.meta with tokens := { r.meta.tokens with password := some { tok with hashParameters := some { id := phc.id, params := phc.params, salt := some phc.salt }, sha256 := some (.digest (fastHash none h false)) } } } }]) := by
  constructor
  · intro r tok sec uri hdup
    unfold _addTotpToken getAccountRecord brAccountGet
    rw [List.find?_cons_of_pos _ (by simp)]
    dsimp only [Bind.bind, Except.bind, TokensMap.get]
    rw [if_pos (by simp)]
    dsimp only
    rw [if_pos hdup]
  · intro cfg r tok h phc hphc hmin
    unfold _addPasswordToken
    dsimp only
    rw [hphc]
    simp [hmin, setToken, updateOne, List.findIdx?_cons, Bind.bind, Except.bind]

/-- Witness for C8 on concrete accounts. -/
theorem totp_duplicate_and_password_replace_witness :
    _addTotpToken [accountRecordT] accountRecordT.account.id { id := "totp-new" }
        "SECRET2" "otpauth-url"
      = .error (.duplicateError "TOTP authentication token already set.") ∧
    _addPasswordToken {} [accountRecordP] accountRecordP.account.id { id := "pw-new" }
        (some sampleHash)
      = .ok [{ accountRecordP with meta := { accountRecordP.meta with tokens := { accountRecordP.meta.tokens with password := some { id := "pw-new", hashParameters := some { id := "pbkdf2-sha512", params := [("i", .num 100000)], salt := some "QUFB" }, sha256 := some (.digest (fastHash none sampleHash false)) } } } }] := by
  constructor
  · exact totp_duplicate_and_password_replace.1 accountRecordT { id := "totp-new" }
      "SECRET2" "otpauth-url" (by rfl)
  · exact totp_duplicate_and_password_replace.2 {} accountRecordP { id := "pw-new" }
      sampleHash
      { id := "pbkdf2-sha512", params := [("i", .num 100000)], salt := "QUFB", hash := "QkJC" }
      (by rfl) (by rfl)

/-- C9 (code bug): registration behaviour of `clients.set`.  A fresh
unauthenticated registration succeeds and stores
`{id: hash(clientId), authenticated}` under the hashed id, but emits NO
event — the `created`/`authenticated` notification block sits after the
update loop whose success path `return`s, so it is unreachable.  Promoting
an already-authenticated client raises `DuplicateError`, emits the
`warning` event, and leaves the stored client map unchanged; and
`isRegistered` reports exactly the stored authenticated entry. -/
theorem clientsSet_behavior :
    (clientsSet [accountRecordC] "acct-c" "cookie-1" false true).result = .ok () ∧
    (clientsSet [accountRecordC] "acct-c" "cookie-1" false true).events = [] ∧
    (clientsSet [accountRecordC] "acct-c" "cookie-1" false true).db
      = [{ accountRecordC with meta := { sequence := 1, clients := [(fastHashBase64 "cookie-1", { id := fastHashBase64 "cookie-1", authenticated := false })] } }] ∧
    (clientsSet [accountRecordC2] "acct-c2" "cookie-1" true true).result
      = .error (.duplicateError ("Could not set account token client as authenticated; token client " ++ "already authenticated.")) ∧
    (clientsSet [accountRecordC2] "acct-c2" "cookie-1" true true).events
      = [ClientEvent.warning] ∧
    (clientsSet [accountRecordC2] "acct-c2" "cookie-1" true true).db = [accountRecordC2] ∧
    isRegistered [accountRecordC2] "acct-c2" "cookie-1" = .ok true ∧
    isRegistered [accountRecordC] "acct-c" "cookie-1" = .ok false :=
  ⟨rfl, rfl, rfl, rfl, rfl, rfl, rfl, rfl⟩

end BedrockAuthnToken
